import Mathlib

/-!
# Admin dashboard of the food-ordering front end

A shallow embedding of `Frontend/src/components/Admin/AdminPage.jsx`
(`AdminDashboard`) and `Frontend/src/components/Items/AllrectOrder.jsx`
(`AllrectOrder`): the JavaScript values the two components read from the
fetched JSON, the built-ins they call on them (`parseFloat`, `parseInt`,
property access on a plain object, `Array.prototype.includes`, `filter`,
`sort`), the derived metrics, the React state written by the fetch
effects, and `handleDelete`.
-/

namespace Foodie

/-! ## JavaScript numbers and scalar values -/

/-- A JavaScript Number: a finite IEEE 754 double, given by the rational it
denotes, one of the two infinities, or NaN. The two zeros are one value (they
are equal under `===` and print alike). -/
inductive JSNum where
  | fin (q : ℚ)
  | inf (neg : Bool)
  | nan
deriving DecidableEq

namespace JSNum

/-- The exponent of the spacing of the doubles around the magnitude `a`: 52
below its binary exponent, and no less than the spacing of the subnormals,
2^-1074. -/
def ulpExponent (a : ℚ) : Int := max (Int.log 2 a) (-1022) - 52

/-- The integer nearest to `m`, the even one of two equally near. -/
def roundHalfEven (m : ℚ) : Int :=
  if m - (Int.floor m : ℚ) < 1 / 2 then Int.floor m
  else if 1 / 2 < m - (Int.floor m : ℚ) then Int.floor m + 1
  else if Int.floor m % 2 = 0 then Int.floor m
  else Int.floor m + 1

/-- The magnitude `a` rounded to the nearest multiple of the spacing of the
doubles around it. -/
def roundMagnitude (a : ℚ) : ℚ :=
  (roundHalfEven (a / (2 : ℚ) ^ ulpExponent a) : ℚ) * (2 : ℚ) ^ ulpExponent a

/-- The Number a real value rounds to (round to nearest, ties to even): an
infinity when the rounded magnitude reaches 2^1024. -/
def roundDouble (q : ℚ) : JSNum :=
  if q = 0 then fin 0
  else if (2 : ℚ) ^ (1024 : ℤ) ≤ roundMagnitude |q| then inf (decide (q < 0))
  else fin (if q < 0 then -roundMagnitude |q| else roundMagnitude |q|)

/-- Whether the real value is a double: rounding does not move it. -/
def isDouble (q : ℚ) : Prop := roundDouble q = fin q

/-- The `+` operator on two Numbers. -/
def add : JSNum → JSNum → JSNum
  | fin a, fin b => roundDouble (a + b)
  | fin _, inf s => inf s
  | inf s, fin _ => inf s
  | inf s, inf t => if s = t then inf s else nan
  | nan, _ => nan
  | _, nan => nan

/-- The `*` operator on two Numbers. -/
def mul : JSNum → JSNum → JSNum
  | fin a, fin b => roundDouble (a * b)
  | fin a, inf s => if a = 0 then nan else inf (xor s (decide (a < 0)))
  | inf s, fin b => if b = 0 then nan else inf (xor s (decide (b < 0)))
  | inf s, inf t => inf (xor s t)
  | nan, _ => nan
  | _, nan => nan

/-- The test `Number.isNaN`. -/
def isNaN : JSNum → Bool
  | nan => true
  | _ => false

end JSNum

/-- A scalar JSON field as the components see it after `response.json()`:
a missing property reads as `undefined`. -/
inductive JSVal where
  | undefined
  | null
  | bool (b : Bool)
  | num (n : JSNum)
  | str (s : String)
deriving DecidableEq

/-- The characters `parseFloat` and `parseInt` skip at the start of their
argument (white space and line terminators). -/
def isStrWhiteSpace (c : Char) : Bool :=
  let n := c.toNat
  n = 9 || n = 10 || n = 11 || n = 12 || n = 13 || n = 32 || n = 160
    || n = 5760 || (8192 ≤ n && n ≤ 8202) || n = 8232 || n = 8233
    || n = 8239 || n = 8287 || n = 12288 || n = 65279

/-- The value of a digit character in the given radix, if it is one. -/
def digitValue (radix : Nat) (c : Char) : Option Nat :=
  let n := c.toNat
  let v :=
    if 48 ≤ n ∧ n ≤ 57 then some (n - 48)
    else if 97 ≤ n ∧ n ≤ 122 then some (n - 87)
    else if 65 ≤ n ∧ n ≤ 90 then some (n - 55)
    else none
  v.bind (fun d => if d < radix then some d else none)

/-- The longest run of digits of the radix at the start of the text, and the
rest. -/
def takeDigits (radix : Nat) : List Char → List Nat × List Char
  | [] => ([], [])
  | c :: cs =>
    match digitValue radix c with
    | some d => ((takeDigits radix cs).1.cons d, (takeDigits radix cs).2)
    | none => ([], c :: cs)

/-- The number a digit sequence denotes in the radix. -/
def natOfDigits (radix : Nat) (ds : List Nat) : Nat :=
  ds.foldl (fun acc d => radix * acc + d) 0

/-- An optional sign at the start of the text: whether it is a minus, and the
rest. -/
def takeSign : List Char → Bool × List Char
  | '-' :: cs => (true, cs)
  | '+' :: cs => (false, cs)
  | cs => (false, cs)

/-- The exponent part of a decimal literal (`e` or `E`, an optional sign, at
least one digit), 0 when the text does not start with one. -/
def takeExponent : List Char → Int
  | c :: cs =>
    if c = 'e' ∨ c = 'E' then
      let sd := takeSign cs
      let ds := (takeDigits 10 sd.2).1
      if ds = [] then 0
      else if sd.1 then -((natOfDigits 10 ds : Nat) : Int) else ((natOfDigits 10 ds : Nat) : Int)
    else 0
  | [] => 0

/-- The rational with the given sign and magnitude. -/
def signed (neg : Bool) (q : ℚ) : ℚ := if neg then -q else q

/-- The function `parseFloat` on a string: skip leading white space, read the
longest prefix that is a decimal literal (or `Infinity`), NaN when there is
none; the value of the literal is rounded to a double. -/
def parseFloatStr (s : String) : JSNum :=
  let sd := takeSign (s.toList.dropWhile isStrWhiteSpace)
  if "Infinity".toList.isPrefixOf sd.2 then JSNum.inf sd.1
  else
    let ip := takeDigits 10 sd.2
    let fp : List Nat × List Char :=
      match ip.2 with
      | '.' :: r => takeDigits 10 r
      | r => ([], r)
    if ip.1 = [] ∧ fp.1 = [] then JSNum.nan
    else
      JSNum.roundDouble (signed sd.1
        ((natOfDigits 10 (ip.1 ++ fp.1) : ℚ) / (10 : ℚ) ^ fp.1.length
          * (10 : ℚ) ^ takeExponent fp.2))

/-- The function `parseInt` (no radix argument) on a string: skip leading
white space, an optional sign, an optional `0x` prefix selecting radix 16, then
the longest run of digits; NaN when that run is empty, else the integer
read, rounded to a double. -/
def parseIntStr (s : String) : JSNum :=
  let sd := takeSign (s.toList.dropWhile isStrWhiteSpace)
  let rd : Nat × List Char :=
    match sd.2 with
    | '0' :: 'x' :: r => (16, r)
    | '0' :: 'X' :: r => (16, r)
    | r => (10, r)
  let ds := (takeDigits rd.1 rd.2).1
  if ds = [] then JSNum.nan
  else JSNum.roundDouble (signed sd.1 (natOfDigits rd.1 ds : ℚ))

/-- The leading decimal digit of a natural number. -/
def leadingDigit (n : Nat) : Nat :=
  if n < 10 then n else leadingDigit (n / 10)
decreasing_by omega

/-- The leading digit of `s` when the `k`-digit decimal `s × 10^(p - k + 1)`
nearest to the double `a` reads back as `a`, where `10^p ≤ a < 10^(p + 1)`;
`s` is the integer just below or just above `a / 10^(p - k + 1)`, the nearer
of the two when both read back. -/
def shortestLeadAt (a : ℚ) (p : Int) (k : Nat) : Option Nat :=
  let scale : ℚ := (10 : ℚ) ^ (p - (k : Int) + 1)
  let lo : Nat := Int.toNat (Int.floor (a / scale))
  if JSNum.roundDouble ((lo : ℚ) * scale) = JSNum.fin a
      ∧ (a - (lo : ℚ) * scale ≤ ((lo : ℚ) + 1) * scale - a
          ∨ ¬ JSNum.roundDouble (((lo : ℚ) + 1) * scale) = JSNum.fin a) then
    some (leadingDigit lo)
  else if JSNum.roundDouble (((lo : ℚ) + 1) * scale) = JSNum.fin a then
    some (leadingDigit (lo + 1))
  else none

/-- The first digit `Number::toString` writes for the positive double `a`:
the leading digit of the shortest decimal (at most 17 digits) that reads back
as `a`. -/
def shortestLead (a : ℚ) : Nat :=
  ((List.range 17).findSome? (fun i => shortestLeadAt a (Int.log 10 a) (i + 1))).getD
    (leadingDigit (Int.toNat (Int.floor (a / (10 : ℚ) ^ Int.log 10 a))))

/-- The function `parseInt` on a Number, which first converts it to a string.
`Number::toString` writes magnitudes in `[1e-6, 1e21)` in plain decimal
notation, so `parseInt` reads the integer part; outside that range it writes
`d.ddde±x` with the shortest digits that read back as the Number, so
`parseInt` reads the single leading digit. `NaN` and the infinities give NaN. -/
def parseIntNum : JSNum → JSNum
  | JSNum.nan => JSNum.nan
  | JSNum.inf _ => JSNum.nan
  | JSNum.fin q =>
    if q = 0 then JSNum.fin 0
    else if (10 : ℚ) ^ 21 ≤ |q| ∨ |q| < 1 / (10 : ℚ) ^ 6 then
      JSNum.roundDouble (signed (decide (q < 0)) (shortestLead |q| : ℚ))
    else JSNum.roundDouble (signed (decide (q < 0)) (Int.natAbs (Int.floor |q|) : ℚ))

/-- The string a scalar converts to when a string is expected, for the
values that are not Numbers. -/
def nonNumToString : JSVal → String
  | JSVal.undefined => "undefined"
  | JSVal.null => "null"
  | JSVal.bool true => "true"
  | JSVal.bool false => "false"
  | JSVal.str s => s
  | JSVal.num _ => ""

/-- The function `parseFloat` on a scalar. A Number converts to a string
that reads back as the same Number. -/
def parseFloat : JSVal → JSNum
  | JSVal.num n => n
  | v => parseFloatStr (nonNumToString v)

/-- The function `parseInt` on a scalar. -/
def parseInt : JSVal → JSNum
  | JSVal.num n => parseIntNum n
  | v => parseIntStr (nonNumToString v)

/-! ## Orders and the order metrics of `AdminDashboard` -/

/-- An order as returned by `GET /api/orders`, with the fields the two
components read. `createdAt` is the time value of `new Date(order.createdAt)`
in milliseconds, `none` for an invalid date. -/
structure Order where
  id : String
  productId : JSVal
  price : JSVal
  quantity : JSVal
  status : JSVal
  createdAt : Option Int
deriving DecidableEq

/-- The metric `totalEarnings`:
`orders.reduce((total, order) => total + parseFloat(order.price) * parseInt(order.quantity), 0)`. -/
def totalEarnings (orders : List Order) : JSNum :=
  orders.foldl
    (fun total order => JSNum.add total (JSNum.mul (parseFloat order.price) (parseInt order.quantity)))
    (JSNum.fin 0)

/-- The field value read as a finite Number: the rational it holds, 0 for
anything else. Used to state what a sum over numeric fields is. -/
def numericValue : JSVal → ℚ
  | JSVal.num (JSNum.fin q) => q
  | _ => 0

/-- The earnings policy of the specification, in its words: a parsed field
that is not a number is treated as 0. -/
def coerceZero (n : JSNum) : JSNum :=
  if n.isNaN then JSNum.fin 0 else n

/-- The sum of price × quantity with every malformed field replaced by 0, as
the specification words it. -/
def earningsCoerced (orders : List Order) : JSNum :=
  orders.foldl
    (fun total order =>
      JSNum.add total
        (JSNum.mul (coerceZero (parseFloat order.price)) (coerceZero (parseInt order.quantity))))
    (JSNum.fin 0)

/-- The metric `pendingOrders`:
`orders.filter(order => order.status === 'Pending').length`. Strict equality
with a string literal holds for that very string only. -/
def pendingOrders (orders : List Order) : Nat :=
  (orders.filter (fun order => decide (order.status = JSVal.str "Pending"))).length

/-- One step of the reducer of `totalProducts`: push the product id unless the
accumulator includes it. `includes` compares with SameValueZero, which on
scalars is equality of values (NaN equals NaN). -/
def pushUnique (uniqueProducts : List JSVal) (order : Order) : List JSVal :=
  if uniqueProducts.contains order.productId then uniqueProducts
  else uniqueProducts ++ [order.productId]

/-- The array built by the reducer of `totalProducts`. -/
def uniqueProductIds (orders : List Order) : List JSVal :=
  orders.foldl pushUnique []

/-- The metric `totalProducts`: the length of that array. -/
def totalProducts (orders : List Order) : Nat :=
  (uniqueProductIds orders).length

/-! ## Users and the role histogram -/

/-- A user as returned by `GET /api/users`. -/
structure User where
  id : String
  fullName : String
  email : String
  role : String
deriving DecidableEq

/-- What a property of the `counts` object can hold: a Number (a count) or a
string (the result of `+` on a non-number). -/
inductive CountVal where
  | num (n : Nat)
  | text (s : String)
deriving DecidableEq

/-- The own properties of the object literal `{}` that the reducer of
`userRoleCounts` fills, in insertion order. -/
abbrev Counts := List (String × CountVal)

/-- The property names every plain object inherits from `Object.prototype`. -/
def objectPrototypeNames : List String :=
  ["constructor", "__defineGetter__", "__defineSetter__", "hasOwnProperty",
   "__lookupGetter__", "__lookupSetter__", "isPrototypeOf", "propertyIsEnumerable",
   "toString", "valueOf", "__proto__", "toLocaleString"]

/-- The string an inherited member converts to under `+` (the text of a
built-in function is engine-defined; this is the V8 form). -/
def inheritedToString (name : String) : String :=
  if name = "__proto__" then "[object Object]"
  else if name = "constructor" then "function Object() \x7b [native code] \x7d"
  else "function " ++ name ++ "() \x7b [native code] \x7d"

/-- What reading `counts[key]` finds. -/
inductive Lookup where
  | own (v : CountVal)
  | inherited (name : String)
  | undefined
deriving DecidableEq

/-- The own property stored under the key, if any. -/
def ownProperty (counts : Counts) (key : String) : Option CountVal :=
  (counts.find? (fun kv => kv.1 == key)).map Prod.snd

/-- The read `counts[key]`: an own property, else a member inherited from
`Object.prototype`, else `undefined`. -/
def getProperty (counts : Counts) (key : String) : Lookup :=
  match ownProperty counts key with
  | some v => Lookup.own v
  | none => if key ∈ objectPrototypeNames then Lookup.inherited key else Lookup.undefined

/-- The expression `(counts[key] || 0) + 1`: a falsy value (undefined, 0, the
empty string) gives 1, a number one more, and anything else is converted to a
string and `1` is appended. -/
def incremented : Lookup → CountVal
  | Lookup.undefined => CountVal.num 1
  | Lookup.own (CountVal.num n) => CountVal.num (n + 1)
  | Lookup.own (CountVal.text s) => if s = "" then CountVal.num 1 else CountVal.text (s ++ "1")
  | Lookup.inherited name => CountVal.text (inheritedToString name ++ "1")

/-- Replace the value of an own property, keeping its place. -/
def replaceProperty (key : String) (v : CountVal) : Counts → Counts
  | [] => []
  | kv :: rest => if kv.1 == key then (key, v) :: rest else kv :: replaceProperty key v rest

/-- The write `counts[key] = v`: the inherited `__proto__` setter ignores a
primitive, an own property is overwritten, and otherwise one is created. -/
def setProperty (counts : Counts) (key : String) (v : CountVal) : Counts :=
  if key = "__proto__" then counts
  else if (ownProperty counts key).isSome then replaceProperty key v counts
  else counts ++ [(key, v)]

/-- The histogram `userRoleCounts`:
`users.reduce((counts, user) => (counts[user.role] = (counts[user.role] || 0) + 1, counts), {})`. -/
def userRoleCounts (users : List User) : Counts :=
  users.foldl
    (fun counts user => setProperty counts user.role (incremented (getProperty counts user.role)))
    []

/-- The number of users with the given role. -/
def roleCount (users : List User) (r : String) : Nat :=
  users.countP (fun u => decide (u.role = r))

/-! ## The state of `AdminDashboard` and its fetch effects -/

/-- The category statistics: parallel arrays of labels and magnitudes. -/
structure CategoryStats where
  labels : List String
  data : List ℚ
deriving DecidableEq

/-- The initial value of the `categoryStats` state. -/
def defaultCategoryStats : CategoryStats where
  labels := ["Combo", "All-in-1", "Main Course", "Sandwiches", "Drinks", "Desserts",
    "Ice Creams", "Biryani"]
  data := [30, 20, 50, 10, 70, 40, 30, 40]

/-- The `useState` cells of `AdminDashboard`. `error` is `none` for `null`. -/
structure DashboardState where
  users : List User
  orders : List Order
  reviews : Nat
  error : Option String
  categoryStats : CategoryStats
deriving DecidableEq

/-- The state at mount: the initial values of the `useState` calls. -/
def initialState : DashboardState where
  users := []
  orders := []
  reviews := 0
  error := none
  categoryStats := defaultCategoryStats

/-- How one GET of the mount effect ends: a success status with a decoded
body, a non-success status, or a rejection of `fetch` (transport) or of
`response.json()` (undecodable body) with the message of the error thrown. -/
inductive FetchOutcome (α : Type) where
  | ok (body : α)
  | badStatus
  | thrown (message : String)

/-- The effect `fetchUsers` at its resolution. -/
def fetchUsers (s : DashboardState) : FetchOutcome (List User) → DashboardState
  | FetchOutcome.ok userData => { s with users := userData }
  | FetchOutcome.badStatus => { s with error := some "Failed to fetch users" }
  | FetchOutcome.thrown message => { s with error := some message }

/-- The effect `fetchOrders` at its resolution. -/
def fetchOrders (s : DashboardState) : FetchOutcome (List Order) → DashboardState
  | FetchOutcome.ok orderData => { s with orders := orderData }
  | FetchOutcome.badStatus => { s with error := some "Failed to fetch orders" }
  | FetchOutcome.thrown message => { s with error := some message }

/-- The effect `fetchCategoryStats` at its resolution: a failure is logged to
the console and writes no state. -/
def fetchCategoryStats (s : DashboardState) : FetchOutcome CategoryStats → DashboardState
  | FetchOutcome.ok stats => { s with categoryStats := stats }
  | FetchOutcome.badStatus => s
  | FetchOutcome.thrown _ => s

/-- The labels and the data of the first dataset of the chart object
`itemsData`, both read from `categoryStats`. -/
def itemsData (s : DashboardState) : List String × List ℚ :=
  (s.categoryStats.labels, s.categoryStats.data)

/-- The render test `error ? ... : ...`: the error view is shown when the
held error is truthy (set, and not the empty string). -/
def showsError (s : DashboardState) : Bool :=
  match s.error with
  | some message => decide (message ≠ "")
  | none => false

/-- The rows of the users table: name, email and role of every held user. -/
def usersTable (s : DashboardState) : List (String × String × String) :=
  s.users.map (fun user => (user.fullName, user.email, user.role))

/-! ## The delete action -/

/-- The level of a toast: `toast.success`, `toast.error`, `toast.warn`,
`toast.info`. -/
inductive ToastKind where
  | success
  | error
  | warning
  | info
deriving DecidableEq

/-- A notification handed to react-toastify. -/
structure Toast where
  kind : ToastKind
  text : String
  autoClose : Nat
deriving DecidableEq

/-- A network call issued by `handleDelete`; `email` is the one property of
the JSON body. -/
structure Request where
  method : String
  url : String
  email : String
deriving DecidableEq

/-- The module constant `serverURL`. -/
def serverURL : String := "http://localhost:5000"

/-- The decoded body of the DELETE response as far as `handleDelete` reads it:
JSON `null`, or a value with optional string properties `message` and `error`. -/
inductive DeleteBody where
  | jsonNull
  | object (message error : Option String)
deriving DecidableEq

/-- How the DELETE call ends: `fetch` rejects, or a response arrives with its
`ok` flag and a body that fails to decode or decodes. -/
inductive DeleteReply where
  | rejected
  | undecodable (ok : Bool)
  | decoded (ok : Bool) (body : DeleteBody)
deriving DecidableEq

/-- The expression `value || fallback` on an optional string: a missing or
empty string is falsy. -/
def orDefault (value : Option String) (fallback : String) : String :=
  match value with
  | some v => if v = "" then fallback else v
  | none => fallback

/-- What one call of `handleDelete` does: the network calls it issued, the
toasts it raised, and the dashboard state after it. -/
structure DeleteRun where
  requests : List Request
  toasts : List Toast
  state : DashboardState
deriving DecidableEq

/-- The handler `handleDelete(email, role)`, given how the DELETE call ends
should it be issued. Reading a property of `null` throws, which the `catch`
block handles like a rejection. The handler calls no state setter. -/
def handleDelete (s : DashboardState) (email role : String) (reply : DeleteReply) : DeleteRun :=
  if role = "Admin" then
    { requests := [], toasts := [⟨ToastKind.error, "Admin cannot be deleted!", 3000⟩], state := s }
  else
    let request : Request := ⟨"DELETE", serverURL ++ "/api/user", email⟩
    match reply with
    | DeleteReply.decoded true (DeleteBody.object message _) =>
      { requests := [request],
        toasts := [⟨ToastKind.success, orDefault message "User deleted successfully", 3000⟩],
        state := s }
    | DeleteReply.decoded false (DeleteBody.object _ error) =>
      { requests := [request],
        toasts := [⟨ToastKind.error, orDefault error "Failed to delete user", 3000⟩],
        state := s }
    | _ =>
      { requests := [request],
        toasts := [⟨ToastKind.error, "An error occurred while deleting the user", 3000⟩],
        state := s }

/-- An event of one activation of the dashboard: one of the three fetches of
the mount effect resolves, or a click on a delete button runs to its end. -/
inductive Event where
  | usersResolved (r : FetchOutcome (List User))
  | ordersResolved (r : FetchOutcome (List Order))
  | statsResolved (r : FetchOutcome CategoryStats)
  | deleteClicked (email role : String) (reply : DeleteReply)

/-- The state after one event. -/
def step (s : DashboardState) : Event → DashboardState
  | Event.usersResolved r => fetchUsers s r
  | Event.ordersResolved r => fetchOrders s r
  | Event.statsResolved r => fetchCategoryStats s r
  | Event.deleteClicked email role reply => (handleDelete s email role reply).state

/-- The state after a sequence of events, in the order they happen. -/
def run (s : DashboardState) (events : List Event) : DashboardState :=
  events.foldl step s

/-- The message a users or orders fetch stores when it fails, `none` for any
other event. -/
def failureMessage : Event → Option String
  | Event.usersResolved FetchOutcome.badStatus => some "Failed to fetch users"
  | Event.usersResolved (FetchOutcome.thrown message) => some message
  | Event.ordersResolved FetchOutcome.badStatus => some "Failed to fetch orders"
  | Event.ordersResolved (FetchOutcome.thrown message) => some message
  | _ => none

/-- Whether the event is a failed category-stats fetch or no category-stats
fetch at all. -/
def statsNotLoaded : Event → Bool
  | Event.statsResolved (FetchOutcome.ok _) => false
  | _ => true

/-! ## The recent-orders view of `AllrectOrder` -/

/-- The local time zone as `Date` sees it, in milliseconds: the offset of local
time from UTC in effect at a UTC instant, and the offset in effect at a local
time (the abstract operation `LocalTZA` with its flag set and cleared). -/
structure TimeZone where
  utcOffset : Int → Int
  localOffset : Int → Int

/-- The threshold `sevenDaysAgo`, for `new Date()` at the instant `now`
(milliseconds since the epoch): `setDate(getDate() - 7)` converts to local
time, moves the day number back by 7 keeping the time within the day, and
converts back to UTC with the offset in effect at that local time. -/
def sevenDaysAgo (tz : TimeZone) (now : Int) : Int :=
  (now + tz.utcOffset now - 7 * 86400000)
    - tz.localOffset (now + tz.utcOffset now - 7 * 86400000)

/-- The filter test `orderDate >= sevenDaysAgo`; a comparison with an invalid
date (NaN) is false. -/
def isRecent (tz : TimeZone) (now : Int) (order : Order) : Bool :=
  match order.createdAt with
  | some t => decide (sevenDaysAgo tz now ≤ t)
  | none => false

/-- The comparator `(a, b) => new Date(b.createdAt) - new Date(a.createdAt)`:
`none` when a date is invalid (NaN). -/
def compareRecent (a b : Order) : Option Int :=
  match a.createdAt, b.createdAt with
  | some ta, some tb => some (tb - ta)
  | _, _ => none

/-- Whether `sort` may leave `a` in front of `b`: the comparator does not
return a positive number (NaN counts as 0). -/
def keepsBefore (a b : Order) : Bool :=
  match compareRecent a b with
  | some d => decide (d ≤ 0)
  | none => true

/-- The orders `AllrectOrder` stores after a successful fetch at time `now`:
`filter` by the date test, then `sort` with the comparator. `sort` is stable,
and on the filtered orders (all dates valid) the comparator is consistent, so
every stable sort returns the same array; it is computed here by insertion. -/
def recentOrders (tz : TimeZone) (now : Int) (allOrders : List Order) : List Order :=
  (allOrders.filter (isRecent tz now)).insertionSort (fun a b => keepsBefore a b = true)

/-- The zone of New York around March 2024: UTC-5 until the clocks go forward
on 10 March at 07:00 UTC (02:00 local time), UTC-4 after. -/
def newYorkMarch2024 : TimeZone where
  utcOffset := fun t => if 1710054000000 ≤ t then -4 * 3600000 else -5 * 3600000
  localOffset := fun t => if 1710039600000 ≤ t then -4 * 3600000 else -5 * 3600000

/-! ## The role chart dataset -/

/-- The array index a property key denotes, if it is one: a decimal numeral
without a leading zero whose value is below 2^32 - 1. -/
def arrayIndex (key : String) : Option Nat :=
  match key.toList with
  | [] => none
  | c :: cs =>
    if (c :: cs).all Char.isDigit && (c != '0' || cs.isEmpty) then
      if natOfDigits 10 ((c :: cs).map (fun d => d.toNat - 48)) < 2 ^ 32 - 1 then
        some (natOfDigits 10 ((c :: cs).map (fun d => d.toNat - 48)))
      else none
    else none

/-- The own properties in the order `Object.keys` and `Object.values`
enumerate them: the array-index keys in ascending numeric order, then the
other keys in insertion order. -/
def ownEntries (counts : Counts) : Counts :=
  (counts.filter (fun kv => (arrayIndex kv.1).isSome)).insertionSort
      (fun a b => (arrayIndex a.1).getD 0 ≤ (arrayIndex b.1).getD 0)
    ++ counts.filter (fun kv => !(arrayIndex kv.1).isSome)

/-- The call `Object.keys(counts)`. -/
def objectKeys (counts : Counts) : List String :=
  (ownEntries counts).map Prod.fst

/-- The call `Object.values(counts)`. -/
def objectValues (counts : Counts) : List CountVal :=
  (ownEntries counts).map Prod.snd

/-- The labels and the data of the first dataset of the chart object
`userRoleData`. -/
def userRoleData (users : List User) : List String × List CountVal :=
  (objectKeys (userRoleCounts users), objectValues (userRoleCounts users))

/-! ## Sample records -/

/-- The numeric value of one order line: price times quantity. -/
def lineValue (o : Order) : ℚ := numericValue o.price * numericValue o.quantity

/-- A sample order with the given price, quantity and product id. -/
def sampleOrder (productId price quantity : JSVal) : Order where
  id := "o1"
  productId := productId
  price := price
  quantity := quantity
  status := JSVal.str "Pending"
  createdAt := none

/-- A finite Number as a field value. -/
def numField (q : ℚ) : JSVal := JSVal.num (JSNum.fin q)

/-- A sample non-admin user. -/
def sampleUser : User where
  id := "u1"
  fullName := "Bob"
  email := "bob@example.com"
  role := "User"

/-- A state holding the sample user. -/
def sampleState : DashboardState := { initialState with users := [sampleUser] }

/-- The message of the first users or orders failure of a sequence of events,
if any. -/
def firstFailure (events : List Event) : Option String :=
  (events.filterMap failureMessage).head?

/-- The message of the last users or orders failure of a sequence of events,
if any. -/
def lastFailure (events : List Event) : Option String :=
  (events.filterMap failureMessage).getLast?

/-- A sample order with the given id and creation time. -/
def datedOrder (id : String) (createdAt : Option Int) : Order where
  id := id
  productId := JSVal.str "p1"
  price := numField 10
  quantity := numField 1
  status := JSVal.str "Pending"
  createdAt := createdAt

/-- A sample order with the given status. -/
def statusOrder (status : JSVal) : Order where
  id := "o1"
  productId := JSVal.str "p1"
  price := numField 10
  quantity := numField 1
  status := status
  createdAt := none

/-- The time value of an order, 0 for an invalid date. -/
def timeKey (o : Order) : Int := o.createdAt.getD 0

/-- A sample user with the given role. -/
def roleUser (role : String) : User where
  id := "u1"
  fullName := "Sample"
  email := "sample@example.com"
  role := role

/-! ## Event classes used to state the activation properties -/

/-- Whether a GET ended in a failure: a non-success status, or a rejection of
the transport or of the decoding. -/
def FetchOutcome.failed {α : Type} : FetchOutcome α → Bool
  | FetchOutcome.ok _ => false
  | FetchOutcome.badStatus => true
  | FetchOutcome.thrown _ => true

/-- Whether the DELETE call failed: `fetch` rejected, the body did not decode,
or the status was not a success status. -/
def isDeleteFailure : DeleteReply → Bool
  | DeleteReply.rejected => true
  | DeleteReply.undecodable _ => true
  | DeleteReply.decoded ok _ => !ok

/-- The collection a successful users fetch stores, `none` for any other
event. -/
def usersLoaded : Event → Option (List User)
  | Event.usersResolved (FetchOutcome.ok userData) => some userData
  | _ => none

/-- The collection a successful orders fetch stores, `none` for any other
event. -/
def ordersLoaded : Event → Option (List Order)
  | Event.ordersResolved (FetchOutcome.ok orderData) => some orderData
  | _ => none

/-- Whether the error an event throws, if it is a users or orders fetch that
rejects, carries a non-empty message, as the errors raised by `fetch` and
`response.json()` do. -/
def thrownMessageNonEmpty : Event → Bool
  | Event.usersResolved (FetchOutcome.thrown message) => decide (message ≠ "")
  | Event.ordersResolved (FetchOutcome.thrown message) => decide (message ≠ "")
  | _ => true

/-! ## Lemmas on the number model -/

theorem JSNum.add_nan_left (x : JSNum) : JSNum.add JSNum.nan x = JSNum.nan := by
  cases x <;> rfl

theorem JSNum.add_nan_right (x : JSNum) : JSNum.add x JSNum.nan = JSNum.nan := by
  cases x <;> rfl

theorem JSNum.mul_nan_left (x : JSNum) : JSNum.mul JSNum.nan x = JSNum.nan := by
  cases x <;> rfl

theorem JSNum.mul_nan_right (x : JSNum) : JSNum.mul x JSNum.nan = JSNum.nan := by
  cases x <;> rfl

theorem parseFloat_undefined : parseFloat JSVal.undefined = JSNum.nan := by rfl

theorem parseInt_undefined : parseInt JSVal.undefined = JSNum.nan := by rfl

theorem JSNum.roundHalfEven_intCast (n : ℤ) : JSNum.roundHalfEven (n : ℚ) = n := by
  unfold JSNum.roundHalfEven
  simp

theorem JSNum.roundDouble_zero : JSNum.roundDouble 0 = JSNum.fin 0 := by
  simp [JSNum.roundDouble]

theorem log_two_eq (a : ℚ) (L : ℤ) (h1 : (2 : ℚ) ^ L ≤ a) (h2 : a < (2 : ℚ) ^ (L + 1)) :
    Int.log 2 a = L := by
  have ha : 0 < a := lt_of_lt_of_le (zpow_pos (by norm_num) L) h1
  have hle : L ≤ Int.log 2 a := by
    rw [← Int.zpow_le_iff_le_log (by norm_num) ha]
    exact_mod_cast h1
  have hlt : Int.log 2 a < L + 1 := by
    rw [← Int.lt_zpow_iff_log_lt (by norm_num) ha]
    exact_mod_cast h2
  omega

theorem JSNum.roundMagnitude_of_exact (a : ℚ) (L n : ℤ)
    (h1 : (2 : ℚ) ^ L ≤ a) (h2 : a < (2 : ℚ) ^ (L + 1)) (hL : -1022 ≤ L)
    (hn : a = (n : ℚ) * (2 : ℚ) ^ (L - 52)) : JSNum.roundMagnitude a = a := by
  have hlog := log_two_eq a L h1 h2
  have hulp : JSNum.ulpExponent a = L - 52 := by
    unfold JSNum.ulpExponent
    rw [hlog, max_eq_left hL]
  unfold JSNum.roundMagnitude
  rw [hulp]
  have hpos : (0 : ℚ) < (2 : ℚ) ^ (L - 52) := zpow_pos (by norm_num) _
  have hdiv : a / (2 : ℚ) ^ (L - 52) = (n : ℚ) := by
    rw [hn]
    field_simp
  rw [hdiv, JSNum.roundHalfEven_intCast, ← hn]

theorem JSNum.roundDouble_of_exact (q : ℚ) (L n : ℤ)
    (h1 : (2 : ℚ) ^ L ≤ |q|) (h2 : |q| < (2 : ℚ) ^ (L + 1)) (hL : -1022 ≤ L) (hL2 : L ≤ 1023)
    (hn : |q| = (n : ℚ) * (2 : ℚ) ^ (L - 52)) : JSNum.roundDouble q = JSNum.fin q := by
  have hmag := JSNum.roundMagnitude_of_exact |q| L n h1 h2 hL hn
  have hq0 : q ≠ 0 := by
    intro e
    rw [e, abs_zero] at h1
    exact absurd h1 (not_le.mpr (zpow_pos (by norm_num) L))
  have hbig : ¬ ((2 : ℚ) ^ (1024 : ℤ) ≤ |q|) := by
    apply not_le.mpr
    apply lt_of_lt_of_le h2
    exact zpow_le_zpow_right₀ (by norm_num) (by omega)
  unfold JSNum.roundDouble
  rw [if_neg hq0, hmag, if_neg hbig]
  by_cases hneg : q < 0
  · rw [if_pos hneg, abs_of_neg hneg, neg_neg]
  · rw [if_neg hneg, abs_of_nonneg (not_lt.mp hneg)]


/-- Every natural number up to 2^53 is a double. -/
theorem JSNum.roundDouble_natCast (n : ℕ) (h : n ≤ 2 ^ 53) :
    JSNum.roundDouble (n : ℚ) = JSNum.fin (n : ℚ) := by
  rcases Nat.eq_zero_or_pos n with h0 | hpos
  · rw [h0]
    simp [JSNum.roundDouble]
  · have habs : |(n : ℚ)| = (n : ℚ) := abs_of_nonneg (by positivity)
    rcases Nat.lt_or_ge n (2 ^ 53) with hlt | hge
    · have hlog : Nat.log 2 n < 53 := Nat.log_lt_of_lt_pow (by omega) hlt
      apply JSNum.roundDouble_of_exact (n : ℚ) (Nat.log 2 n : ℤ)
        ((n * 2 ^ (52 - Nat.log 2 n) : ℕ) : ℤ)
      · rw [habs, zpow_natCast]
        exact_mod_cast Nat.pow_log_le_self 2 (by omega)
      · rw [habs]
        have : n < 2 ^ (Nat.log 2 n + 1) := Nat.lt_pow_succ_log_self (by norm_num) n
        have h2 : ((Nat.log 2 n : ℤ) + 1) = ((Nat.log 2 n + 1 : ℕ) : ℤ) := by push_cast; ring
        rw [h2, zpow_natCast]
        exact_mod_cast this
      · omega
      · omega
      · rw [habs]
        have hexp : ((Nat.log 2 n : ℤ) - 52) = -((52 - Nat.log 2 n : ℕ) : ℤ) := by omega
        rw [hexp, zpow_neg, zpow_natCast]
        push_cast
        field_simp
    · have hn : n = 2 ^ 53 := le_antisymm h hge
      subst hn
      apply JSNum.roundDouble_of_exact _ 53 (2 ^ 52)
      · rw [habs]; norm_num
      · rw [habs]; norm_num
      · norm_num
      · norm_num
      · rw [habs]; norm_num

/-- On a natural number below 10^21 that is a double `parseInt` is the
identity. -/
theorem parseIntNum_natCast (n : ℕ) (h : n < 10 ^ 21)
    (hd : JSNum.roundDouble (n : ℚ) = JSNum.fin (n : ℚ)) :
    parseIntNum (JSNum.fin (n : ℚ)) = JSNum.fin (n : ℚ) := by
  by_cases h0 : (n : ℚ) = 0
  · simp [parseIntNum, h0]
  · have hn : 0 < n := Nat.pos_of_ne_zero (fun e => h0 (by simp [e]))
    have hpos : (0 : ℚ) < (n : ℚ) := by exact_mod_cast hn
    have habs : |(n : ℚ)| = (n : ℚ) := abs_of_pos hpos
    have hlt : ¬ ((10 : ℚ) ^ 21 ≤ (n : ℚ)) := by
      have : (n : ℚ) < (10 : ℚ) ^ 21 := by exact_mod_cast h
      exact not_le.mpr this
    have hge : ¬ ((n : ℚ) < 1 / (10 : ℚ) ^ 6) := by
      have h1 : (1 : ℚ) ≤ (n : ℚ) := by exact_mod_cast hn
      have h2 : 1 / (10 : ℚ) ^ 6 ≤ 1 := by norm_num
      exact not_lt.mpr (le_trans h2 h1)
    have hneg : ¬ ((n : ℚ) < 0) := not_lt.mpr hpos.le
    have hrange : ¬ ((10 : ℚ) ^ 21 ≤ (n : ℚ) ∨ (n : ℚ) < 1 / (10 : ℚ) ^ 6) := by
      rintro (h1 | h1)
      · exact hlt h1
      · exact hge h1
    show (if (n : ℚ) = 0 then JSNum.fin 0
      else if (10 : ℚ) ^ 21 ≤ |(n : ℚ)| ∨ |(n : ℚ)| < 1 / (10 : ℚ) ^ 6 then _ else _) = _
    rw [if_neg h0, habs, if_neg hrange]
    simp only [signed, hneg, decide_False, Bool.false_eq_true, if_false, Int.floor_natCast,
      Int.natAbs_ofNat]
    exact hd

theorem roundDouble_ten_pow_21 :
    JSNum.roundDouble ((10 : ℚ) ^ 21) = JSNum.fin ((10 : ℚ) ^ 21) := by
  have habs : |(10 : ℚ) ^ 21| = (10 : ℚ) ^ 21 := abs_of_pos (by positivity)
  apply JSNum.roundDouble_of_exact _ 69 7629394531250000
  · rw [habs]; norm_num
  · rw [habs]; norm_num
  · norm_num
  · norm_num
  · rw [habs]; norm_num

/-- When the double `a` is itself `lo × 10^(p - k + 1)`, that decimal is the
one chosen at `k` digits. -/
theorem shortestLeadAt_exact (a : ℚ) (p : ℤ) (k lo : ℕ)
    (hfloor : Int.toNat (Int.floor (a / (10 : ℚ) ^ (p - (k : ℤ) + 1))) = lo)
    (hexact : (lo : ℚ) * (10 : ℚ) ^ (p - (k : ℤ) + 1) = a)
    (hd : JSNum.roundDouble a = JSNum.fin a) :
    shortestLeadAt a p k = some (leadingDigit lo) := by
  have hscale : (0 : ℚ) ≤ (10 : ℚ) ^ (p - (k : ℤ) + 1) := by positivity
  simp only [shortestLeadAt]
  rw [hfloor, hexact, if_pos]
  refine ⟨hd, Or.inl ?_⟩
  rw [add_mul, hexact]
  linarith

/-- When a one-digit decimal reads back as `a`, its digit is the first digit
written. -/
theorem shortestLead_of_one_digit (a : ℚ) (d : ℕ)
    (h : shortestLeadAt a (Int.log 10 a) 1 = some d) : shortestLead a = d := by
  unfold shortestLead
  rw [List.range_succ_eq_map, List.findSome?_cons]
  simp only [Nat.zero_add] at h ⊢
  rw [h]
  rfl

/-- Outside the plain-notation range `parseInt` reads the leading digit. -/
theorem parseIntNum_exponent_form (q : ℚ) (hq : 0 < q) (h : (10 : ℚ) ^ 21 ≤ q) :
    parseIntNum (JSNum.fin q) = JSNum.roundDouble (shortestLead q : ℚ) := by
  have habs : |q| = q := abs_of_pos hq
  have hneg : ¬ (q < 0) := not_lt.mpr hq.le
  show (if q = 0 then JSNum.fin 0
    else if (10 : ℚ) ^ 21 ≤ |q| ∨ |q| < 1 / (10 : ℚ) ^ 6 then _ else _) = _
  rw [if_neg hq.ne', habs, if_pos (Or.inl h)]
  simp only [signed, hneg, decide_False, Bool.false_eq_true, if_false]

theorem leadingDigit_of_lt (n : ℕ) (h : n < 10) : leadingDigit n = n := by
  rw [leadingDigit, if_pos h]

theorem shortestLead_ten_pow_21 : shortestLead ((10 : ℚ) ^ 21) = 1 := by
  have hlog : Int.log 10 ((10 : ℚ) ^ 21) = ((21 : ℕ) : ℤ) := by
    have h := Int.log_zpow (R := ℚ) (b := 10) (by norm_num) ((21 : ℕ) : ℤ)
    rw [zpow_natCast] at h
    exact_mod_cast h
  have hexp : (((21 : ℕ) : ℤ) - ((1 : ℕ) : ℤ) + 1) = ((21 : ℕ) : ℤ) := by norm_num
  have hat : shortestLeadAt ((10 : ℚ) ^ 21) ((21 : ℕ) : ℤ) 1 = some (leadingDigit 1) := by
    apply shortestLeadAt_exact
    · rw [hexp, zpow_natCast, div_self (by positivity), Int.floor_one]
      rfl
    · rw [hexp, zpow_natCast, Nat.cast_one, one_mul]
    · exact roundDouble_ten_pow_21
  rw [leadingDigit_of_lt 1 (by norm_num)] at hat
  apply shortestLead_of_one_digit
  rw [hlog]
  exact hat

theorem parseIntNum_ten_pow_21 : parseIntNum (JSNum.fin ((10 : ℚ) ^ 21)) = JSNum.fin 1 := by
  rw [parseIntNum_exponent_form _ (by positivity) le_rfl, shortestLead_ten_pow_21]
  exact JSNum.roundDouble_natCast 1 (by norm_num)

/-- The sum 2^53 + 1 lies halfway between two doubles and rounds to the even
one, 2^53. -/
theorem roundDouble_two_pow_53_add_one :
    JSNum.roundDouble ((2 : ℚ) ^ 53 + 1) = JSNum.fin ((2 : ℚ) ^ 53) := by
  have hpos : (0 : ℚ) < (2 : ℚ) ^ 53 + 1 := by positivity
  have habs : |(2 : ℚ) ^ 53 + 1| = (2 : ℚ) ^ 53 + 1 := abs_of_pos hpos
  have hlog : Int.log 2 ((2 : ℚ) ^ 53 + 1) = 53 := by
    apply log_two_eq <;> norm_num
  have hulp : JSNum.ulpExponent ((2 : ℚ) ^ 53 + 1) = 1 := by
    unfold JSNum.ulpExponent
    rw [hlog]
    norm_num
  have hfloor : Int.floor (((2 : ℚ) ^ 53 + 1) / (2 : ℚ) ^ (1 : ℤ)) = 2 ^ 52 := by
    rw [Int.floor_eq_iff]
    norm_num
  have hhalf : JSNum.roundHalfEven (((2 : ℚ) ^ 53 + 1) / (2 : ℚ) ^ (1 : ℤ)) = 2 ^ 52 := by
    unfold JSNum.roundHalfEven
    rw [hfloor]
    norm_num
  have hmag : JSNum.roundMagnitude ((2 : ℚ) ^ 53 + 1) = (2 : ℚ) ^ 53 := by
    unfold JSNum.roundMagnitude
    rw [hulp, hhalf]
    norm_num
  unfold JSNum.roundDouble
  rw [if_neg hpos.ne', habs, hmag, if_neg, if_neg (not_lt.mpr hpos.le)]
  apply not_le.mpr
  exact zpow_lt_zpow_right₀ (by norm_num) (by norm_num : (53 : ℤ) < 1024) |>.trans_eq' (by norm_num)

/-- The reducer step on a numeric order whose product and new running total
are doubles. -/
theorem earnings_step_exact (total p : ℚ) (n : ℕ) (o : Order)
    (hp : o.price = JSVal.num (JSNum.fin p)) (hq : o.quantity = JSVal.num (JSNum.fin (n : ℚ)))
    (hn : n < 10 ^ 21) (hdn : JSNum.isDouble (n : ℚ)) (hprod : JSNum.isDouble (p * (n : ℚ)))
    (hsum : JSNum.isDouble (total + p * (n : ℚ))) :
    JSNum.add (JSNum.fin total) (JSNum.mul (parseFloat o.price) (parseInt o.quantity))
      = JSNum.fin (total + lineValue o) := by
  have hline : lineValue o = p * (n : ℚ) := by
    simp only [lineValue, hp, hq, numericValue]
  rw [hp, hq, hline]
  show JSNum.add (JSNum.fin total) (JSNum.mul (JSNum.fin p) (parseIntNum (JSNum.fin (n : ℚ)))) = _
  rw [parseIntNum_natCast n hn hdn]
  show JSNum.add (JSNum.fin total) (JSNum.roundDouble (p * (n : ℚ))) = _
  rw [hprod]
  exact hsum

theorem totalEarnings_append_singleton (init : List Order) (o : Order) :
    totalEarnings (init ++ [o])
      = JSNum.add (totalEarnings init)
          (JSNum.mul (parseFloat o.price) (parseInt o.quantity)) := by
  simp [totalEarnings, List.foldl_append]

/-- Once the running total is NaN it stays NaN. -/
theorem foldl_earnings_nan (orders : List Order) :
    orders.foldl
      (fun total order =>
        JSNum.add total (JSNum.mul (parseFloat order.price) (parseInt order.quantity)))
      JSNum.nan = JSNum.nan := by
  induction orders with
  | nil => rfl
  | cons o rest ih => simpa [List.foldl_cons, JSNum.add_nan_left] using ih

/-- If some order has a price or a quantity that parses to NaN, the reducer
ends in NaN whatever the running total was. -/
theorem foldl_earnings_malformed (orders : List Order)
    (h : ∃ o ∈ orders, parseFloat o.price = JSNum.nan ∨ parseInt o.quantity = JSNum.nan)
    (acc : JSNum) :
    orders.foldl
      (fun total order =>
        JSNum.add total (JSNum.mul (parseFloat order.price) (parseInt order.quantity)))
      acc = JSNum.nan := by
  induction orders generalizing acc with
  | nil =>
    obtain ⟨o, ho, _⟩ := h
    cases ho
  | cons o rest ih =>
    simp only [List.foldl_cons]
    by_cases hbad : parseFloat o.price = JSNum.nan ∨ parseInt o.quantity = JSNum.nan
    · have hmul : JSNum.mul (parseFloat o.price) (parseInt o.quantity) = JSNum.nan := by
        rcases hbad with hp | hq
        · rw [hp, JSNum.mul_nan_left]
        · rw [hq, JSNum.mul_nan_right]
      rw [hmul, JSNum.add_nan_right]
      exact foldl_earnings_nan rest
    · apply ih
      obtain ⟨x, hx, hxbad⟩ := h
      rcases List.mem_cons.mp hx with rfl | hmem
      · exact absurd hxbad hbad
      · exact ⟨x, hmem, hxbad⟩

/-! ## C1: total earnings over numeric orders -/

theorem JSNum.mul_fin (a b : ℚ) :
    JSNum.mul (JSNum.fin a) (JSNum.fin b) = JSNum.roundDouble (a * b) := rfl

theorem JSNum.add_fin (a b : ℚ) :
    JSNum.add (JSNum.fin a) (JSNum.fin b) = JSNum.roundDouble (a + b) := rfl

theorem roundDouble_one : JSNum.roundDouble 1 = JSNum.fin 1 := by
  have h := JSNum.roundDouble_natCast 1 (by norm_num)
  rw [Nat.cast_one] at h
  exact h

theorem roundDouble_two_pow_53 : JSNum.roundDouble ((2 : ℚ) ^ 53) = JSNum.fin ((2 : ℚ) ^ 53) := by
  have h := JSNum.roundDouble_natCast (2 ^ 53) le_rfl
  rw [Nat.cast_pow, Nat.cast_ofNat] at h
  exact h

theorem parseIntNum_one : parseIntNum (JSNum.fin 1) = JSNum.fin 1 := by
  have h := parseIntNum_natCast 1 (by norm_num) (JSNum.roundDouble_natCast 1 (by norm_num))
  rw [Nat.cast_one] at h
  exact h

theorem totalEarnings_singleton (o : Order) :
    totalEarnings [o]
      = JSNum.add (JSNum.fin 0) (JSNum.mul (parseFloat o.price) (parseInt o.quantity)) := rfl

theorem totalEarnings_pair (o₁ o₂ : Order) :
    totalEarnings [o₁, o₂]
      = JSNum.add
          (JSNum.add (JSNum.fin 0) (JSNum.mul (parseFloat o₁.price) (parseInt o₁.quantity)))
          (JSNum.mul (parseFloat o₂.price) (parseInt o₂.quantity)) := rfl

theorem sampleOrder_price (productId price quantity : JSVal) :
    (sampleOrder productId price quantity).price = price := rfl

theorem sampleOrder_quantity (productId price quantity : JSVal) :
    (sampleOrder productId price quantity).quantity = quantity := rfl

theorem parseFloat_numField (q : ℚ) : parseFloat (numField q) = JSNum.fin q := rfl

theorem parseInt_numField (q : ℚ) : parseInt (numField q) = parseIntNum (JSNum.fin q) := rfl

/-- C1, the claim as stated fails, in two ways. An order of price 1 and
quantity 10^21 contributes 1, not 10^21, because `parseInt` converts the
Number to the string `1e+21` and reads its leading digit. And for the orders
2^53 × 1 and 1 × 1 the total is 2^53, not 2^53 + 1, because `+` rounds to the
nearest double. -/
theorem totalEarnings_differs_from_sum :
    (totalEarnings [sampleOrder (JSVal.str "p1") (numField 1) (numField ((10 : ℚ) ^ 21))]
        = JSNum.fin 1
      ∧ ([sampleOrder (JSVal.str "p1") (numField 1) (numField ((10 : ℚ) ^ 21))].map
          lineValue).sum = (10 : ℚ) ^ 21)
    ∧ (totalEarnings
          [sampleOrder (JSVal.str "p1") (numField ((2 : ℚ) ^ 53)) (numField 1),
           sampleOrder (JSVal.str "p2") (numField 1) (numField 1)]
        = JSNum.fin ((2 : ℚ) ^ 53)
      ∧ ([sampleOrder (JSVal.str "p1") (numField ((2 : ℚ) ^ 53)) (numField 1),
          sampleOrder (JSVal.str "p2") (numField 1) (numField 1)].map lineValue).sum
        = (2 : ℚ) ^ 53 + 1) := by
  refine ⟨⟨?_, ?_⟩, ?_, ?_⟩
  · rw [totalEarnings_singleton, sampleOrder_price, sampleOrder_quantity, parseFloat_numField,
      parseInt_numField, parseIntNum_ten_pow_21, JSNum.mul_fin, mul_one, roundDouble_one,
      JSNum.add_fin, zero_add, roundDouble_one]
  · simp only [List.map_cons, List.map_nil, List.sum_cons, List.sum_nil, lineValue, sampleOrder,
      numField, numericValue]
    ring
  · rw [totalEarnings_pair]
    simp only [sampleOrder_price, sampleOrder_quantity, parseFloat_numField, parseInt_numField]
    rw [parseIntNum_one, JSNum.mul_fin, mul_one, roundDouble_two_pow_53, JSNum.add_fin, zero_add,
      roundDouble_two_pow_53, JSNum.mul_fin, mul_one, roundDouble_one, JSNum.add_fin,
      roundDouble_two_pow_53_add_one]
  · simp only [List.map_cons, List.map_nil, List.sum_cons, List.sum_nil, lineValue, sampleOrder,
      numField, numericValue]
    ring

/-- C1, amended: for every order list in which each price is a finite number,
each quantity is a non-negative integer below 10^21, and every product
price × quantity and every running total of these products is a double (so
that `*` and `+` do not round), `totalEarnings` is the sum over all orders of
price × quantity; for the empty list it is 0. -/
theorem totalEarnings_eq_sum (orders : List Order)
    (hfields : ∀ o ∈ orders, ∃ p : ℚ, ∃ n : ℕ,
      o.price = JSVal.num (JSNum.fin p) ∧ o.quantity = JSVal.num (JSNum.fin (n : ℚ))
      ∧ n < 10 ^ 21 ∧ JSNum.isDouble (n : ℚ) ∧ JSNum.isDouble (p * (n : ℚ)))
    (hsums : ∀ k, k ≤ orders.length → JSNum.isDouble (((orders.take k).map lineValue).sum)) :
    totalEarnings orders = JSNum.fin ((orders.map lineValue).sum)
    ∧ totalEarnings [] = JSNum.fin 0 := by
  refine ⟨?_, rfl⟩
  induction orders using List.reverseRecOn with
  | nil => rfl
  | append_singleton init o ih =>
    have hinit : totalEarnings init = JSNum.fin ((init.map lineValue).sum) := by
      apply ih
      · intro x hx
        exact hfields x (List.mem_append_left _ hx)
      · intro k hk
        have h := hsums k (by rw [List.length_append]; omega)
        rw [List.take_append_of_le_length hk] at h
        exact h
    obtain ⟨p, n, hp, hq, hn, hdn, hprod⟩ :=
      hfields o (List.mem_append_right _ (List.mem_singleton.mpr rfl))
    have hline : lineValue o = p * (n : ℚ) := by
      simp only [lineValue, hp, hq, numericValue]
    have hall := hsums (init ++ [o]).length le_rfl
    rw [List.take_length, List.map_append, List.sum_append, List.map_singleton,
      List.sum_singleton, hline] at hall
    rw [totalEarnings_append_singleton, hinit,
      earnings_step_exact _ p n o hp hq hn hdn hprod hall, List.map_append, List.sum_append,
      List.map_singleton, List.sum_singleton]

theorem isDouble_fifteen_halves : JSNum.isDouble (15 / 2) := by
  apply JSNum.roundDouble_of_exact _ 2 8444249301319680 <;> norm_num [abs_of_pos]

theorem isDouble_fifty_five_halves : JSNum.isDouble (55 / 2) := by
  apply JSNum.roundDouble_of_exact _ 4 7740561859543040 <;> norm_num [abs_of_pos]

/-- C1, amended claim at two orders: 2.5 × 3 and 10 × 2 give 27.5. -/
theorem totalEarnings_eq_sum_witness :
    totalEarnings
      [sampleOrder (JSVal.str "p1") (numField (5 / 2)) (numField ((3 : ℕ) : ℚ)),
       sampleOrder (JSVal.str "p2") (numField 10) (numField ((2 : ℕ) : ℚ))]
      = JSNum.fin (([sampleOrder (JSVal.str "p1") (numField (5 / 2)) (numField ((3 : ℕ) : ℚ)),
       sampleOrder (JSVal.str "p2") (numField 10) (numField ((2 : ℕ) : ℚ))].map lineValue).sum)
    ∧ totalEarnings [] = JSNum.fin 0 :=
  totalEarnings_eq_sum _
    (by
      intro o ho
      simp only [List.mem_cons, List.mem_singleton, List.not_mem_nil, or_false] at ho
      rcases ho with rfl | rfl
      · refine ⟨5 / 2, 3, rfl, rfl, by norm_num, JSNum.roundDouble_natCast 3 (by norm_num), ?_⟩
        have h : (5 / 2 : ℚ) * ((3 : ℕ) : ℚ) = 15 / 2 := by norm_num
        rw [h]
        exact isDouble_fifteen_halves
      · refine ⟨10, 2, rfl, rfl, by norm_num, JSNum.roundDouble_natCast 2 (by norm_num), ?_⟩
        have h : (10 : ℚ) * ((2 : ℕ) : ℚ) = ((20 : ℕ) : ℚ) := by norm_num
        rw [h]
        exact JSNum.roundDouble_natCast 20 (by norm_num))
    (by
      intro k hk
      have hk2 : k ≤ 2 := hk
      interval_cases k
      · show JSNum.isDouble 0
        exact JSNum.roundDouble_zero
      · show JSNum.isDouble ((5 / 2 : ℚ) * ((3 : ℕ) : ℚ) + 0)
        have h : (5 / 2 : ℚ) * ((3 : ℕ) : ℚ) + 0 = 15 / 2 := by norm_num
        rw [h]
        exact isDouble_fifteen_halves
      · show JSNum.isDouble ((5 / 2 : ℚ) * ((3 : ℕ) : ℚ) + ((10 : ℚ) * ((2 : ℕ) : ℚ) + 0))
        have h : (5 / 2 : ℚ) * ((3 : ℕ) : ℚ) + ((10 : ℚ) * ((2 : ℕ) : ℚ) + 0) = 55 / 2 := by
          norm_num
        rw [h]
        exact isDouble_fifty_five_halves)

/-! ## C2: malformed price or quantity -/

/-- C2, the claim as stated fails: with one order whose price is missing the
code yields NaN, while the sum with malformed fields replaced by 0 is 0. -/
theorem totalEarnings_missing_price :
    totalEarnings [sampleOrder (JSVal.str "p1") JSVal.undefined (numField 2)] = JSNum.nan
    ∧ earningsCoerced [sampleOrder (JSVal.str "p1") JSVal.undefined (numField 2)] = JSNum.fin 0
    ∧ ¬ (totalEarnings [sampleOrder (JSVal.str "p1") JSVal.undefined (numField 2)] ≠ JSNum.nan
        ∧ totalEarnings [sampleOrder (JSVal.str "p1") JSVal.undefined (numField 2)]
          = earningsCoerced [sampleOrder (JSVal.str "p1") JSVal.undefined (numField 2)]) := by
  have htotal : totalEarnings [sampleOrder (JSVal.str "p1") JSVal.undefined (numField 2)]
      = JSNum.nan := by
    simp [totalEarnings, sampleOrder, parseFloat_undefined, JSNum.mul_nan_left,
      JSNum.add_nan_right]
  have hspec : earningsCoerced [sampleOrder (JSVal.str "p1") JSVal.undefined (numField 2)]
      = JSNum.fin 0 := by
    have h2 : parseIntNum (JSNum.fin 2) = JSNum.fin 2 := by
      have h := parseIntNum_natCast 2 (by norm_num) (JSNum.roundDouble_natCast 2 (by norm_num))
      rw [Nat.cast_ofNat] at h
      exact h
    have hone : ∀ o : Order, earningsCoerced [o]
        = JSNum.add (JSNum.fin 0)
            (JSNum.mul (coerceZero (parseFloat o.price)) (coerceZero (parseInt o.quantity))) :=
      fun _ => rfl
    have hnan : coerceZero JSNum.nan = JSNum.fin 0 := rfl
    have hfin : ∀ q : ℚ, coerceZero (JSNum.fin q) = JSNum.fin q := fun _ => rfl
    rw [hone, sampleOrder_price, sampleOrder_quantity, parseFloat_undefined, parseInt_numField,
      h2, hnan, hfin, JSNum.mul_fin, zero_mul, JSNum.roundDouble_zero, JSNum.add_fin, zero_add,
      JSNum.roundDouble_zero]
  refine ⟨htotal, hspec, ?_⟩
  rintro ⟨hne, _⟩
  exact hne htotal

/-- C2, amended: malformed fields are not replaced by 0. For every order list
containing an order whose price or quantity is missing, or parses to NaN
(non-numeric), `totalEarnings` is NaN. -/
theorem totalEarnings_nan_of_malformed (orders : List Order)
    (h : ∃ o ∈ orders, o.price = JSVal.undefined ∨ o.quantity = JSVal.undefined
      ∨ parseFloat o.price = JSNum.nan ∨ parseInt o.quantity = JSNum.nan) :
    totalEarnings orders = JSNum.nan := by
  apply foldl_earnings_malformed
  obtain ⟨o, ho, hbad⟩ := h
  refine ⟨o, ho, ?_⟩
  rcases hbad with hp | hq | hp | hq
  · left; rw [hp]; exact parseFloat_undefined
  · right; rw [hq]; exact parseInt_undefined
  · exact Or.inl hp
  · exact Or.inr hq

/-- C2, amended claim at a list whose second order has the quantity `"many"`. -/
theorem totalEarnings_nan_of_malformed_witness :
    totalEarnings
      [sampleOrder (JSVal.str "p1") (numField 10) (numField 2),
       sampleOrder (JSVal.str "p2") (numField 5) (JSVal.str "many")] = JSNum.nan :=
  totalEarnings_nan_of_malformed _
    ⟨sampleOrder (JSVal.str "p2") (numField 5) (JSVal.str "many"),
      by simp,
      Or.inr (Or.inr (Or.inr (by rfl)))⟩

/-! ## Lemmas on the delete action and the fetch effects -/

/-- The handler writes no state, on every path. -/
theorem handleDelete_state (s : DashboardState) (email role : String) (reply : DeleteReply) :
    (handleDelete s email role reply).state = s := by
  unfold handleDelete
  split
  · rfl
  · split <;> rfl

/-- The error cell after one event: the message of the event when it is a
users or orders failure, the previous value otherwise. -/
theorem step_error (s : DashboardState) (e : Event) :
    (step s e).error = (match failureMessage e with
      | some message => some message
      | none => s.error) := by
  cases e with
  | usersResolved r => cases r <;> rfl
  | ordersResolved r => cases r <;> rfl
  | statsResolved r => cases r <;> rfl
  | deleteClicked email role reply =>
    show (handleDelete s email role reply).state.error = s.error
    rw [handleDelete_state]

/-- Only a successful category-stats fetch writes `categoryStats`. -/
theorem step_categoryStats (s : DashboardState) (e : Event) (h : statsNotLoaded e = true) :
    (step s e).categoryStats = s.categoryStats := by
  cases e with
  | usersResolved r => cases r <;> rfl
  | ordersResolved r => cases r <;> rfl
  | statsResolved r =>
    cases r with
    | ok stats => simp [statsNotLoaded] at h
    | badStatus => rfl
    | thrown message => rfl
  | deleteClicked email role reply =>
    show (handleDelete s email role reply).state.categoryStats = s.categoryStats
    rw [handleDelete_state]

theorem run_append (s : DashboardState) (xs ys : List Event) :
    run s (xs ++ ys) = run (run s xs) ys := by
  simp [run, List.foldl_append]

/-- The error cell after a sequence of events. -/
theorem run_error (s : DashboardState) (events : List Event) :
    (run s events).error = (match lastFailure events with
      | some message => some message
      | none => s.error) := by
  induction events using List.reverseRecOn with
  | nil => rfl
  | append_singleton init e ih =>
    rw [run_append]
    show (step (run s init) e).error = _
    rw [step_error, ih]
    unfold lastFailure
    rw [List.filterMap_append]
    cases hfe : failureMessage e with
    | none => simp [List.filterMap, hfe]
    | some message => simp [List.filterMap, hfe]

/-- The users cell after one event. -/
theorem step_users (s : DashboardState) (e : Event) :
    (step s e).users = (match usersLoaded e with
      | some userData => userData
      | none => s.users) := by
  cases e with
  | usersResolved r => cases r <;> rfl
  | ordersResolved r => cases r <;> rfl
  | statsResolved r => cases r <;> rfl
  | deleteClicked email role reply =>
    show (handleDelete s email role reply).state.users = s.users
    rw [handleDelete_state]

/-- The orders cell after one event. -/
theorem step_orders (s : DashboardState) (e : Event) :
    (step s e).orders = (match ordersLoaded e with
      | some orderData => orderData
      | none => s.orders) := by
  cases e with
  | usersResolved r => cases r <;> rfl
  | ordersResolved r => cases r <;> rfl
  | statsResolved r => cases r <;> rfl
  | deleteClicked email role reply =>
    show (handleDelete s email role reply).state.orders = s.orders
    rw [handleDelete_state]

/-- The users cell after a sequence of events: what the last successful users
fetch stored. -/
theorem run_users (s : DashboardState) (events : List Event) :
    (run s events).users = (match (events.filterMap usersLoaded).getLast? with
      | some userData => userData
      | none => s.users) := by
  induction events using List.reverseRecOn with
  | nil => rfl
  | append_singleton init e ih =>
    rw [run_append]
    show (step (run s init) e).users = _
    rw [step_users, ih, List.filterMap_append]
    cases hue : usersLoaded e with
    | none => simp [List.filterMap, hue]
    | some userData => simp [List.filterMap, hue]

/-- The orders cell after a sequence of events: what the last successful
orders fetch stored. -/
theorem run_orders (s : DashboardState) (events : List Event) :
    (run s events).orders = (match (events.filterMap ordersLoaded).getLast? with
      | some orderData => orderData
      | none => s.orders) := by
  induction events using List.reverseRecOn with
  | nil => rfl
  | append_singleton init e ih =>
    rw [run_append]
    show (step (run s init) e).orders = _
    rw [step_orders, ih, List.filterMap_append]
    cases hoe : ordersLoaded e with
    | none => simp [List.filterMap, hoe]
    | some orderData => simp [List.filterMap, hoe]

/-- Events other than a successful users fetch leave the users cell alone. -/
theorem run_users_of_no_load (s : DashboardState) (events : List Event)
    (h : ∀ e ∈ events, usersLoaded e = none) : (run s events).users = s.users := by
  induction events generalizing s with
  | nil => rfl
  | cons e rest ih =>
    show (run (step s e) rest).users = s.users
    rw [ih (step s e) (fun x hx => h x (List.mem_cons_of_mem _ hx)), step_users,
      h e (List.mem_cons_self _ _)]

/-! ## C3: a successful delete -/

/-- C3, the claim as stated fails: after a successful DELETE of the sample
user (role `User`) the user is still in the held users collection and still a
row of the users table; only the success toast is raised. -/
theorem handleDelete_success_keeps_user :
    sampleUser ∈ (handleDelete sampleState "bob@example.com" "User"
        (DeleteReply.decoded true (DeleteBody.object (some "User deleted") none))).state.users
    ∧ ("Bob", "bob@example.com", "User") ∈ usersTable
        (handleDelete sampleState "bob@example.com" "User"
          (DeleteReply.decoded true (DeleteBody.object (some "User deleted") none))).state
    ∧ ¬ (∀ u ∈ (handleDelete sampleState "bob@example.com" "User"
        (DeleteReply.decoded true (DeleteBody.object (some "User deleted") none))).state.users,
        u.email ≠ "bob@example.com") := by
  rw [handleDelete_state]
  refine ⟨by simp [sampleState], by simp [usersTable, sampleState, sampleUser], ?_⟩
  intro h
  exact h sampleUser (by simp [sampleState]) rfl

/-- C3, amended: for every state and every (email, role) with role not
`Admin`, when the DELETE resolves with a success status and a body that
decodes to a non-null value, one DELETE request is issued, exactly one toast
is raised, a success toast carrying the server message or the default text,
and the held users collection and the users table are unchanged by the
delete, and stay so through every later event that is not a successful users
fetch. -/
theorem handleDelete_success (s : DashboardState) (email role : String)
    (message error : Option String) (later : List Event) (h : role ≠ "Admin")
    (hlater : ∀ e ∈ later, usersLoaded e = none) :
    (handleDelete s email role (DeleteReply.decoded true (DeleteBody.object message error))).toasts
      = [⟨ToastKind.success, orDefault message "User deleted successfully", 3000⟩]
    ∧ (handleDelete s email role
        (DeleteReply.decoded true (DeleteBody.object message error))).requests
      = [⟨"DELETE", serverURL ++ "/api/user", email⟩]
    ∧ (handleDelete s email role
        (DeleteReply.decoded true (DeleteBody.object message error))).state.users = s.users
    ∧ usersTable (handleDelete s email role
        (DeleteReply.decoded true (DeleteBody.object message error))).state = usersTable s
    ∧ (run s (Event.deleteClicked email role
          (DeleteReply.decoded true (DeleteBody.object message error)) :: later)).users = s.users
    ∧ usersTable (run s (Event.deleteClicked email role
          (DeleteReply.decoded true (DeleteBody.object message error)) :: later))
      = usersTable s := by
  have hrun : (run s (Event.deleteClicked email role
      (DeleteReply.decoded true (DeleteBody.object message error)) :: later)).users = s.users := by
    show (run (handleDelete s email role
      (DeleteReply.decoded true (DeleteBody.object message error))).state later).users = s.users
    rw [handleDelete_state, run_users_of_no_load s later hlater]
  refine ⟨?_, ?_, ?_, ?_, hrun, ?_⟩
  · simp [handleDelete, h]
  · simp [handleDelete, h]
  · rw [handleDelete_state]
  · rw [handleDelete_state]
  · unfold usersTable
    rw [hrun]

/-- C3, amended claim at the sample user with a reply that carries no message,
followed by the arrival of the orders and a second delete click. -/
theorem handleDelete_success_witness :
    "User" ≠ "Admin"
    ∧ (handleDelete sampleState "bob@example.com" "User"
        (DeleteReply.decoded true (DeleteBody.object none none))).toasts
      = [⟨ToastKind.success, orDefault none "User deleted successfully", 3000⟩]
    ∧ (handleDelete sampleState "bob@example.com" "User"
        (DeleteReply.decoded true (DeleteBody.object none none))).requests
      = [⟨"DELETE", serverURL ++ "/api/user", "bob@example.com"⟩]
    ∧ (handleDelete sampleState "bob@example.com" "User"
        (DeleteReply.decoded true (DeleteBody.object none none))).state.users = sampleState.users
    ∧ usersTable (handleDelete sampleState "bob@example.com" "User"
        (DeleteReply.decoded true (DeleteBody.object none none))).state = usersTable sampleState
    ∧ (run sampleState (Event.deleteClicked "bob@example.com" "User"
          (DeleteReply.decoded true (DeleteBody.object none none))
        :: [Event.ordersResolved (FetchOutcome.ok []),
            Event.deleteClicked "bob@example.com" "User" DeleteReply.rejected])).users
      = sampleState.users
    ∧ usersTable (run sampleState (Event.deleteClicked "bob@example.com" "User"
          (DeleteReply.decoded true (DeleteBody.object none none))
        :: [Event.ordersResolved (FetchOutcome.ok []),
            Event.deleteClicked "bob@example.com" "User" DeleteReply.rejected]))
      = usersTable sampleState :=
  ⟨by decide,
    handleDelete_success sampleState "bob@example.com" "User" none none
      [Event.ordersResolved (FetchOutcome.ok []),
       Event.deleteClicked "bob@example.com" "User" DeleteReply.rejected]
      (by decide)
      (by
        intro e he
        simp only [List.mem_cons, List.mem_singleton, List.not_mem_nil, or_false] at he
        rcases he with rfl | rfl <;> rfl)⟩

/-! ## C4: the protected role -/

/-- C4, the claim as stated fails: the one toast raised for an `Admin` row is
raised with `toast.error`, so its level is error, not warning. -/
theorem handleDelete_admin_not_warning :
    (handleDelete sampleState "root@example.com" "Admin" DeleteReply.rejected).toasts.map Toast.kind
      = [ToastKind.error]
    ∧ ¬ (∀ t ∈ (handleDelete sampleState "root@example.com" "Admin" DeleteReply.rejected).toasts,
        t.kind = ToastKind.warning) := by
  have h : (handleDelete sampleState "root@example.com" "Admin" DeleteReply.rejected).toasts
      = [⟨ToastKind.error, "Admin cannot be deleted!", 3000⟩] := by
    simp [handleDelete]
  rw [h]
  refine ⟨rfl, ?_⟩
  intro hall
  have := hall ⟨ToastKind.error, "Admin cannot be deleted!", 3000⟩ (by simp)
  simp at this

/-- C4, amended: for every email and every dashboard state,
`handleDelete(email, "Admin")` issues no network call, raises exactly one
toast, an error-level toast with the text `Admin cannot be deleted!` that
closes after 3000 ms, and leaves the dashboard state unchanged. -/
theorem handleDelete_admin (s : DashboardState) (email : String) (reply : DeleteReply) :
    handleDelete s email "Admin" reply
      = { requests := [],
          toasts := [⟨ToastKind.error, "Admin cannot be deleted!", 3000⟩],
          state := s } := by
  simp [handleDelete]

/-! ## C5: which error is held -/

/-- C5, the claim as stated fails: when the users fetch fails first and the
orders fetch fails after it, the error held once all three fetches have
resolved is the message of the orders failure, not of the first failure. -/
theorem run_error_overwritten :
    (run initialState
      [Event.usersResolved FetchOutcome.badStatus,
       Event.ordersResolved FetchOutcome.badStatus,
       Event.statsResolved (FetchOutcome.ok defaultCategoryStats)]).error
      = some "Failed to fetch orders"
    ∧ firstFailure
      [Event.usersResolved FetchOutcome.badStatus,
       Event.ordersResolved FetchOutcome.badStatus,
       Event.statsResolved (FetchOutcome.ok defaultCategoryStats)]
      = some "Failed to fetch users"
    ∧ (run initialState
      [Event.usersResolved FetchOutcome.badStatus,
       Event.ordersResolved FetchOutcome.badStatus,
       Event.statsResolved (FetchOutcome.ok defaultCategoryStats)]).error
      ≠ firstFailure
      [Event.usersResolved FetchOutcome.badStatus,
       Event.ordersResolved FetchOutcome.badStatus,
       Event.statsResolved (FetchOutcome.ok defaultCategoryStats)] := by
  refine ⟨rfl, rfl, ?_⟩
  show some "Failed to fetch orders" ≠ some "Failed to fetch users"
  decide

/-- C5, amended: for every sequence of events of one activation, the error
held after all of them is the message of the last users or orders failure to
resolve (a later failure overwrites an earlier one), and no error is held when
neither fetch failed. -/
theorem run_error_last_failure (events : List Event) :
    (run initialState events).error = lastFailure events := by
  rw [run_error]
  cases lastFailure events <;> rfl

/-! ## C10: the fallback chart dataset -/

/-- As long as no category-stats fetch succeeds, `categoryStats` keeps the
value it had. -/
theorem run_categoryStats (s : DashboardState) (events : List Event)
    (h : ∀ e ∈ events, statsNotLoaded e = true) :
    (run s events).categoryStats = s.categoryStats := by
  induction events generalizing s with
  | nil => rfl
  | cons e rest ih =>
    show (run (step s e) rest).categoryStats = s.categoryStats
    rw [ih (step s e) (fun x hx => h x (List.mem_cons_of_mem _ hx))]
    exact step_categoryStats s e (h e (List.mem_cons_self _ _))

/-- C10: in every activation in which the category-stats fetch fails (a
non-success status, or a rejection of the transport or of the decoding),
whatever the users and orders fetches do and in whatever order the three
resolve, `itemsData` has the eight fixed labels and the eight fixed values. -/
theorem itemsData_fallback (events : List Event)
    (h : ∀ e ∈ events, statsNotLoaded e = true) :
    itemsData (run initialState events)
      = (["Combo", "All-in-1", "Main Course", "Sandwiches", "Drinks", "Desserts",
          "Ice Creams", "Biryani"],
         [30, 20, 50, 10, 70, 40, 30, 40]) := by
  unfold itemsData
  rw [run_categoryStats initialState events h]
  rfl

/-- C10 at an activation where the users fetch gets a bad status, then the
category-stats fetch is rejected, then the orders fetch succeeds. -/
theorem itemsData_fallback_witness :
    itemsData (run initialState
      [Event.usersResolved FetchOutcome.badStatus,
       Event.statsResolved (FetchOutcome.thrown "Failed to fetch"),
       Event.ordersResolved (FetchOutcome.ok [])])
      = (["Combo", "All-in-1", "Main Course", "Sandwiches", "Drinks", "Desserts",
          "Ice Creams", "Biryani"],
         [30, 20, 50, 10, 70, 40, 30, 40]) :=
  itemsData_fallback _ (by
    intro e he
    simp only [List.mem_cons, List.mem_singleton, List.not_mem_nil, or_false] at he
    rcases he with rfl | rfl | rfl <;> rfl)

/-! ## C6: the recent-orders view -/

theorem isRecent_iff (tz : TimeZone) (now : Int) (o : Order) :
    isRecent tz now o = true ↔ ∃ t, o.createdAt = some t ∧ sevenDaysAgo tz now ≤ t := by
  unfold isRecent
  cases h : o.createdAt with
  | none => simp
  | some t => simp

/-- On orders with valid dates the comparator orders by time, latest first. -/
theorem keepsBefore_iff (a b : Order) (ta tb : Int)
    (ha : a.createdAt = some ta) (hb : b.createdAt = some tb) :
    keepsBefore a b = true ↔ timeKey a ≥ timeKey b := by
  simp [keepsBefore, compareRecent, timeKey, ha, hb]

/-- The time values of the view are in non-increasing order. -/
theorem recentOrders_times_sorted (tz : TimeZone) (now : Int) (allOrders : List Order) :
    ((recentOrders tz now allOrders).map timeKey).Sorted (fun x y => x ≥ y) := by
  unfold recentOrders
  rw [List.map_insertionSort (fun a b => keepsBefore a b = true) (fun x y : Int => x ≥ y) timeKey]
  · exact List.sorted_insertionSort _ _
  · intro a ha b hb
    obtain ⟨ta, hta, _⟩ := (isRecent_iff tz now a).mp (List.mem_filter.mp ha).2
    obtain ⟨tb, htb, _⟩ := (isRecent_iff tz now b).mp (List.mem_filter.mp hb).2
    exact keepsBefore_iff a b ta tb hta htb

/-- C6, the claim as stated fails: in New York at 2024-03-12 12:00 UTC, two
days after the clocks went forward, the threshold lies 6 days 23 hours back,
so an order created 6 days 23 hours 30 minutes before the current time, which
is not earlier than 7 days before it, is left out of the view. -/
theorem recentOrders_drops_order_within_week :
    sevenDaysAgo newYorkMarch2024 1710244800000 = 1710244800000 - 167 * 3600000
    ∧ (1710244800000 : Int) - 7 * 86400000 ≤ 1709641800000
    ∧ datedOrder "x" (some 1709641800000)
        ∉ recentOrders newYorkMarch2024 1710244800000 [datedOrder "x" (some 1709641800000)] := by
  decide

/-- C6, amended: for every list of orders, every current time and every local
time zone, the view holds each order created no earlier than the instant that
is, in local time, the same time of day 7 calendar days before the current
local time, as often as the fetched list does, holds no other order, and its
creation times are non-increasing from first to last; that instant is 7 × 24
hours before the current time when the zone has the same offset at both ends. -/
theorem recentOrders_spec (tz : TimeZone) (now : Int) (allOrders : List Order) :
    (∀ o, ((∃ t, o.createdAt = some t
              ∧ (now + tz.utcOffset now - 7 * 86400000)
                  - tz.localOffset (now + tz.utcOffset now - 7 * 86400000) ≤ t) →
          (recentOrders tz now allOrders).count o = allOrders.count o)
        ∧ ((¬ ∃ t, o.createdAt = some t
              ∧ (now + tz.utcOffset now - 7 * 86400000)
                  - tz.localOffset (now + tz.utcOffset now - 7 * 86400000) ≤ t) →
          o ∉ recentOrders tz now allOrders))
    ∧ (recentOrders tz now allOrders).Pairwise
        (fun a b => ∃ ta tb, a.createdAt = some ta ∧ b.createdAt = some tb ∧ tb ≤ ta)
    ∧ (tz.localOffset (now + tz.utcOffset now - 7 * 86400000) = tz.utcOffset now →
        (now + tz.utcOffset now - 7 * 86400000)
            - tz.localOffset (now + tz.utcOffset now - 7 * 86400000)
          = now - 7 * 86400000) := by
  have hperm : (recentOrders tz now allOrders).Perm (allOrders.filter (isRecent tz now)) :=
    List.perm_insertionSort _ _
  refine ⟨fun o => ⟨fun h => ?_, fun h hmem => ?_⟩, ?_, fun heq => ?_⟩
  · rw [hperm.count_eq]
    exact List.count_filter ((isRecent_iff tz now o).mpr h)
  · have := (List.mem_filter.mp (hperm.mem_iff.mp hmem)).2
    exact h ((isRecent_iff tz now o).mp this)
  · have hsorted := recentOrders_times_sorted tz now allOrders
    rw [List.Sorted, List.pairwise_map] at hsorted
    refine hsorted.imp_of_mem ?_
    intro a b ha hb hab
    obtain ⟨ta, hta, _⟩ :=
      (isRecent_iff tz now a).mp (List.mem_filter.mp (hperm.mem_iff.mp ha)).2
    obtain ⟨tb, htb, _⟩ :=
      (isRecent_iff tz now b).mp (List.mem_filter.mp (hperm.mem_iff.mp hb)).2
    refine ⟨ta, tb, hta, htb, ?_⟩
    simpa [timeKey, hta, htb] using hab
  · rw [heq]
    ring

/-! ## C7: pending orders -/

/-- C7: for every order list `pendingOrders` is the number of orders whose
status is exactly the string `Pending`; the statuses `Pending`, `pending`,
`Shipped` give 1. -/
theorem pendingOrders_exact (orders : List Order) :
    pendingOrders orders = (orders.map Order.status).count (JSVal.str "Pending")
    ∧ pendingOrders [statusOrder (JSVal.str "Pending"), statusOrder (JSVal.str "pending"),
        statusOrder (JSVal.str "Shipped")] = 1 := by
  constructor
  · induction orders with
    | nil => rfl
    | cons o rest ih =>
      unfold pendingOrders at ih ⊢
      by_cases h : o.status = JSVal.str "Pending"
      · simp [List.filter_cons, h, ih]
      · simp [List.filter_cons, h, ih, List.count_cons]
  · decide

/-! ## C8: distinct products -/

/-- The reducer keeps its accumulator free of duplicates and adds exactly
the product ids it meets. -/
theorem foldl_pushUnique (orders : List Order) (acc : List JSVal) (hacc : acc.Nodup) :
    (orders.foldl pushUnique acc).Nodup
    ∧ (orders.foldl pushUnique acc).toFinset
      = acc.toFinset ∪ (orders.map Order.productId).toFinset := by
  induction orders generalizing acc with
  | nil => simp [hacc]
  | cons o rest ih =>
    simp only [List.foldl_cons, List.map_cons, List.toFinset_cons]
    by_cases hmem : o.productId ∈ acc
    · have hpush : pushUnique acc o = acc := by
        simp [pushUnique, hmem]
      rw [hpush]
      obtain ⟨hnd, hset⟩ := ih acc hacc
      refine ⟨hnd, ?_⟩
      rw [hset]
      ext x
      simp only [Finset.mem_union, Finset.mem_insert, List.mem_toFinset]
      constructor
      · rintro (h | h)
        · exact Or.inl h
        · exact Or.inr (Or.inr h)
      · rintro (h | h | h)
        · exact Or.inl h
        · exact Or.inl (h ▸ hmem)
        · exact Or.inr h
    · have hpush : pushUnique acc o = acc ++ [o.productId] := by
        simp [pushUnique, hmem]
      rw [hpush]
      have hnd2 : (acc ++ [o.productId]).Nodup := by
        rw [List.nodup_append]
        refine ⟨hacc, List.nodup_singleton _, ?_⟩
        intro x hx hy
        rw [List.mem_singleton] at hy
        exact hmem (hy ▸ hx)
      obtain ⟨hnd, hset⟩ := ih (acc ++ [o.productId]) hnd2
      refine ⟨hnd, ?_⟩
      rw [hset]
      ext x
      simp only [Finset.mem_union, Finset.mem_insert, List.mem_toFinset, List.mem_append,
        List.mem_singleton]
      tauto

/-- The metric is the number of distinct product ids. -/
theorem totalProducts_eq_card (orders : List Order) :
    totalProducts orders = (orders.map Order.productId).toFinset.card := by
  obtain ⟨hnd, hset⟩ := foldl_pushUnique orders [] List.nodup_nil
  unfold totalProducts uniqueProductIds
  rw [← List.toFinset_card_of_nodup hnd, hset]
  simp

/-- C8: for every order list `totalProducts` is the cardinality of the set of
product ids occurring in it, so every permutation of the list gives the same
number; the product ids `a`, `a`, `b` give 2. -/
theorem totalProducts_distinct (orders permuted : List Order) (h : orders.Perm permuted) :
    totalProducts orders = (orders.map Order.productId).toFinset.card
    ∧ totalProducts permuted = totalProducts orders
    ∧ totalProducts
        [sampleOrder (JSVal.str "a") (numField 1) (numField 1),
         sampleOrder (JSVal.str "a") (numField 1) (numField 1),
         sampleOrder (JSVal.str "b") (numField 1) (numField 1)] = 2 := by
  refine ⟨totalProducts_eq_card orders, ?_, ?_⟩
  · rw [totalProducts_eq_card, totalProducts_eq_card]
    rw [List.toFinset_eq_of_perm _ _ (h.map Order.productId)]
  · rw [totalProducts_eq_card]
    decide

/-- C8 at the ids `a`, `a`, `b` and their rearrangement `b`, `a`, `a`. -/
theorem totalProducts_distinct_witness :
    totalProducts
        [sampleOrder (JSVal.str "a") (numField 1) (numField 1),
         sampleOrder (JSVal.str "a") (numField 2) (numField 1),
         sampleOrder (JSVal.str "b") (numField 1) (numField 1)]
      = ([sampleOrder (JSVal.str "a") (numField 1) (numField 1),
         sampleOrder (JSVal.str "a") (numField 2) (numField 1),
         sampleOrder (JSVal.str "b") (numField 1) (numField 1)].map Order.productId).toFinset.card
    ∧ totalProducts
        [sampleOrder (JSVal.str "b") (numField 1) (numField 1),
         sampleOrder (JSVal.str "a") (numField 1) (numField 1),
         sampleOrder (JSVal.str "a") (numField 2) (numField 1)]
      = totalProducts
        [sampleOrder (JSVal.str "a") (numField 1) (numField 1),
         sampleOrder (JSVal.str "a") (numField 2) (numField 1),
         sampleOrder (JSVal.str "b") (numField 1) (numField 1)]
    ∧ totalProducts
        [sampleOrder (JSVal.str "a") (numField 1) (numField 1),
         sampleOrder (JSVal.str "a") (numField 1) (numField 1),
         sampleOrder (JSVal.str "b") (numField 1) (numField 1)] = 2 :=
  totalProducts_distinct _ _
    ((List.Perm.swap _ _ _).trans (List.Perm.cons _ (List.Perm.swap _ _ _))).symm

/-! ## C9: the role histogram -/

theorem ownProperty_nil (r : String) : ownProperty [] r = none := rfl

theorem ownProperty_cons (kv : String × CountVal) (rest : Counts) (r : String) :
    ownProperty (kv :: rest) r = if kv.1 = r then some kv.2 else ownProperty rest r := by
  unfold ownProperty
  by_cases h : kv.1 = r
  · simp [List.find?_cons, h]
  · simp [List.find?_cons, h]

theorem ownProperty_append_singleton (counts : Counts) (k : String) (v : CountVal) (r : String) :
    ownProperty (counts ++ [(k, v)]) r
      = match ownProperty counts r with
        | some x => some x
        | none => if k = r then some v else none := by
  induction counts with
  | nil =>
    show ownProperty [(k, v)] r = _
    rw [ownProperty_cons, ownProperty_nil]
  | cons kv rest ih =>
    rw [List.cons_append, ownProperty_cons, ownProperty_cons, ih]
    by_cases h : kv.1 = r
    · simp [h]
    · simp [h]

theorem ownProperty_replaceProperty (counts : Counts) (k : String) (v : CountVal) (r : String) :
    ownProperty (replaceProperty k v counts) r
      = if k = r then (ownProperty counts k).map (fun _ => v) else ownProperty counts r := by
  induction counts with
  | nil => simp [replaceProperty, ownProperty_nil]
  | cons kv rest ih =>
    unfold replaceProperty
    by_cases hk : kv.1 = k
    · have hb : (kv.1 == k) = true := by simp [hk]
      rw [if_pos hb, ownProperty_cons, ownProperty_cons, ownProperty_cons]
      by_cases hr : k = r
      · simp [hk, hr]
      · have hkr : ¬ kv.1 = r := fun e => hr (hk ▸ e)
        simp [hr, hkr]
    · have hb : ¬ ((kv.1 == k) = true) := by simp [hk]
      rw [if_neg hb, ownProperty_cons, ownProperty_cons, ownProperty_cons, ih]
      by_cases hr : k = r
      · have hkr : ¬ kv.1 = r := fun e => hk (e.trans hr.symm)
        simp [hr, hkr, hk]
      · simp [hr]

/-- What a read finds after a write to a key other than `__proto__`. -/
theorem ownProperty_setProperty (counts : Counts) (k : String) (v : CountVal) (r : String)
    (hk : k ≠ "__proto__") :
    ownProperty (setProperty counts k v) r = if k = r then some v else ownProperty counts r := by
  unfold setProperty
  rw [if_neg hk]
  cases hown : ownProperty counts k with
  | some x =>
    simp only [Option.isSome_some, if_true]
    rw [ownProperty_replaceProperty, hown]
    rfl
  | none =>
    simp only [Option.isSome_none, Bool.false_eq_true, if_false]
    rw [ownProperty_append_singleton]
    by_cases hr : k = r
    · rw [← hr, hown]
    · cases ownProperty counts r <;> simp [hr]

theorem userRoleCounts_append_singleton (init : List User) (u : User) :
    userRoleCounts (init ++ [u])
      = setProperty (userRoleCounts init) u.role
          (incremented (getProperty (userRoleCounts init) u.role)) := by
  simp [userRoleCounts, List.foldl_append]

theorem roleCount_append_singleton (init : List User) (u : User) (r : String) :
    roleCount (init ++ [u]) r = roleCount init r + (if u.role = r then 1 else 0) := by
  unfold roleCount
  rw [List.countP_append]
  by_cases h : u.role = r
  · simp [h]
  · simp [h]

/-- The entry of a role that is no member of `Object.prototype`. -/
theorem ownProperty_userRoleCounts (users : List User) (r : String)
    (h : r ∉ objectPrototypeNames) :
    ownProperty (userRoleCounts users) r
      = if roleCount users r = 0 then none else some (CountVal.num (roleCount users r)) := by
  induction users using List.reverseRecOn with
  | nil => rfl
  | append_singleton init u ih =>
    rw [userRoleCounts_append_singleton, roleCount_append_singleton]
    have hproto : r ≠ "__proto__" := by
      intro e
      apply h
      rw [e]
      decide
    by_cases hk : u.role = "__proto__"
    · have hur : ¬ u.role = r := fun e => hproto (e.symm.trans hk)
      have hset : setProperty (userRoleCounts init) u.role
          (incremented (getProperty (userRoleCounts init) u.role)) = userRoleCounts init := by
        unfold setProperty
        rw [if_pos hk]
      rw [hset, ih, if_neg hur]
      rfl
    · rw [ownProperty_setProperty _ _ _ _ hk]
      by_cases hur : u.role = r
      · rw [if_pos hur, if_pos hur, hur]
        unfold getProperty
        rw [ih]
        by_cases hc : roleCount init r = 0
        · simp [hc, h, incremented]
        · simp [hc, incremented]
      · rw [if_neg hur, if_neg hur, ih]
        rfl

/-- C9, the claim as stated fails: for one user whose role is the string
`constructor` the entry under that key is not the number 1 but the text of the
inherited `Object.prototype.constructor` followed by `1`. -/
theorem userRoleCounts_inherited_key :
    roleCount [roleUser "constructor"] "constructor" = 1
    ∧ ownProperty (userRoleCounts [roleUser "constructor"]) "constructor"
      = some (CountVal.text "function Object() \x7b [native code] \x7d1")
    ∧ ownProperty (userRoleCounts [roleUser "constructor"]) "constructor"
      ≠ some (CountVal.num (roleCount [roleUser "constructor"] "constructor")) := by
  decide

/-- C9, amended: for every user list and every role string r that is not the
name of a member of `Object.prototype`, `userRoleCounts` maps r to the number
of users whose role is r when that number is positive, and has no entry for r
when no user has role r; the roles `Admin`, `User`, `User` give
`Admin: 1, User: 2`. -/
theorem userRoleCounts_spec (users : List User) (r : String)
    (h : r ∉ objectPrototypeNames) :
    (0 < roleCount users r →
      ownProperty (userRoleCounts users) r = some (CountVal.num (roleCount users r)))
    ∧ (roleCount users r = 0 → ownProperty (userRoleCounts users) r = none)
    ∧ userRoleCounts [roleUser "Admin", roleUser "User", roleUser "User"]
      = [("Admin", CountVal.num 1), ("User", CountVal.num 2)] := by
  refine ⟨fun hpos => ?_, fun hzero => ?_, by decide⟩
  · rw [ownProperty_userRoleCounts users r h, if_neg (Nat.pos_iff_ne_zero.mp hpos)]
  · rw [ownProperty_userRoleCounts users r h, if_pos hzero]

/-- C9, amended claim at the roles `Admin`, `User`, `User` and the role `User`. -/
theorem userRoleCounts_spec_witness :
    "User" ∉ objectPrototypeNames
    ∧ (0 < roleCount [roleUser "Admin", roleUser "User", roleUser "User"] "User" →
      ownProperty (userRoleCounts [roleUser "Admin", roleUser "User", roleUser "User"]) "User"
        = some (CountVal.num (roleCount [roleUser "Admin", roleUser "User", roleUser "User"] "User")))
    ∧ (roleCount [roleUser "Admin", roleUser "User", roleUser "User"] "User" = 0 →
      ownProperty (userRoleCounts [roleUser "Admin", roleUser "User", roleUser "User"]) "User"
        = none)
    ∧ userRoleCounts [roleUser "Admin", roleUser "User", roleUser "User"]
      = [("Admin", CountVal.num 1), ("User", CountVal.num 2)] :=
  ⟨by decide,
    userRoleCounts_spec [roleUser "Admin", roleUser "User", roleUser "User"] "User" (by decide)⟩

/-! ## C11: a failed delete leaves the state alone -/

/-- C11: for every dashboard state and every (email, role) with role not
`Admin`, when the DELETE fails (a non-success status, or a transport or decode
error) the users, orders, categoryStats and error cells are unchanged, and
whether the error view is shown does not change. -/
theorem handleDelete_failure_frame (s : DashboardState) (email role : String)
    (reply : DeleteReply) (hrole : role ≠ "Admin") (hfail : isDeleteFailure reply = true) :
    (handleDelete s email role reply).state.users = s.users
    ∧ (handleDelete s email role reply).state.orders = s.orders
    ∧ (handleDelete s email role reply).state.categoryStats = s.categoryStats
    ∧ (handleDelete s email role reply).state.error = s.error
    ∧ showsError (step s (Event.deleteClicked email role reply)) = showsError s
    ∧ (handleDelete s email role reply).requests = [⟨"DELETE", serverURL ++ "/api/user", email⟩]
    ∧ (handleDelete s email role reply).toasts.map Toast.kind = [ToastKind.error] := by
  have hstate := handleDelete_state s email role reply
  have hstep : step s (Event.deleteClicked email role reply) = s := hstate
  rw [hstep, hstate]
  refine ⟨rfl, rfl, rfl, rfl, rfl, ?_, ?_⟩
  · unfold handleDelete
    rw [if_neg hrole]
    split <;> rfl
  · unfold handleDelete
    rw [if_neg hrole]
    cases reply with
    | rejected => rfl
    | undecodable ok => rfl
    | decoded ok body =>
      cases ok with
      | true => simp [isDeleteFailure] at hfail
      | false => cases body <;> rfl

/-- C11 at the sample state and a DELETE answered with a non-success status
and the body `error: "No such user"`. -/
theorem handleDelete_failure_frame_witness :
    "User" ≠ "Admin"
    ∧ isDeleteFailure (DeleteReply.decoded false (DeleteBody.object none (some "No such user")))
      = true
    ∧ (handleDelete sampleState "bob@example.com" "User"
        (DeleteReply.decoded false (DeleteBody.object none (some "No such user")))).state.users
      = sampleState.users
    ∧ (handleDelete sampleState "bob@example.com" "User"
        (DeleteReply.decoded false (DeleteBody.object none (some "No such user")))).state.orders
      = sampleState.orders
    ∧ (handleDelete sampleState "bob@example.com" "User"
        (DeleteReply.decoded false
          (DeleteBody.object none (some "No such user")))).state.categoryStats
      = sampleState.categoryStats
    ∧ (handleDelete sampleState "bob@example.com" "User"
        (DeleteReply.decoded false (DeleteBody.object none (some "No such user")))).state.error
      = sampleState.error
    ∧ showsError (step sampleState (Event.deleteClicked "bob@example.com" "User"
        (DeleteReply.decoded false (DeleteBody.object none (some "No such user")))))
      = showsError sampleState
    ∧ (handleDelete sampleState "bob@example.com" "User"
        (DeleteReply.decoded false (DeleteBody.object none (some "No such user")))).requests
      = [⟨"DELETE", serverURL ++ "/api/user", "bob@example.com"⟩]
    ∧ (handleDelete sampleState "bob@example.com" "User"
        (DeleteReply.decoded false
          (DeleteBody.object none (some "No such user")))).toasts.map Toast.kind
      = [ToastKind.error] :=
  ⟨by decide, rfl,
    handleDelete_failure_frame sampleState "bob@example.com" "User"
      (DeleteReply.decoded false (DeleteBody.object none (some "No such user")))
      (by decide) rfl⟩

/-! ## C12: a failed category-stats fetch alone is not fatal -/

/-- C12: in every activation in which the users and the orders fetch succeed
and the category-stats fetch fails, in whatever order the three resolve, no
error is held, the users and orders cells hold the fetched collections, and
the metrics view, not the error view, is rendered. -/
theorem run_stats_failure_not_fatal (userData : List User) (orderData : List Order)
    (stats : FetchOutcome CategoryStats) (events : List Event)
    (hfail : stats.failed = true)
    (horder : events.Perm
      [Event.usersResolved (FetchOutcome.ok userData),
       Event.ordersResolved (FetchOutcome.ok orderData),
       Event.statsResolved stats]) :
    (run initialState events).error = none
    ∧ (run initialState events).users = userData
    ∧ (run initialState events).orders = orderData
    ∧ showsError (run initialState events) = false := by
  have herr : events.filterMap failureMessage = [] := by
    have hp := horder.filterMap failureMessage
    have hnil : [Event.usersResolved (FetchOutcome.ok userData),
        Event.ordersResolved (FetchOutcome.ok orderData),
        Event.statsResolved stats].filterMap failureMessage = [] := by
      cases stats <;> rfl
    rw [hnil] at hp
    exact List.perm_nil.mp hp
  have husers : events.filterMap usersLoaded = [userData] := by
    have hp := horder.filterMap usersLoaded
    have hone : [Event.usersResolved (FetchOutcome.ok userData),
        Event.ordersResolved (FetchOutcome.ok orderData),
        Event.statsResolved stats].filterMap usersLoaded = [userData] := by
      cases stats <;> rfl
    rw [hone] at hp
    exact List.perm_singleton.mp hp
  have horders : events.filterMap ordersLoaded = [orderData] := by
    have hp := horder.filterMap ordersLoaded
    have hone : [Event.usersResolved (FetchOutcome.ok userData),
        Event.ordersResolved (FetchOutcome.ok orderData),
        Event.statsResolved stats].filterMap ordersLoaded = [orderData] := by
      cases stats <;> rfl
    rw [hone] at hp
    exact List.perm_singleton.mp hp
  have herror : (run initialState events).error = none := by
    rw [run_error]
    unfold lastFailure
    rw [herr]
    rfl
  refine ⟨herror, ?_, ?_, ?_⟩
  · rw [run_users, husers]
    rfl
  · rw [run_orders, horders]
    rfl
  · unfold showsError
    rw [herror]

/-- C12 at an activation where the category-stats fetch gets a bad status
first, then the orders and the users arrive. -/
theorem run_stats_failure_not_fatal_witness :
    (FetchOutcome.badStatus : FetchOutcome CategoryStats).failed = true
    ∧ (run initialState
        [Event.statsResolved FetchOutcome.badStatus,
         Event.ordersResolved (FetchOutcome.ok [datedOrder "o1" (some 0)]),
         Event.usersResolved (FetchOutcome.ok [sampleUser])]).error = none
    ∧ (run initialState
        [Event.statsResolved FetchOutcome.badStatus,
         Event.ordersResolved (FetchOutcome.ok [datedOrder "o1" (some 0)]),
         Event.usersResolved (FetchOutcome.ok [sampleUser])]).users = [sampleUser]
    ∧ (run initialState
        [Event.statsResolved FetchOutcome.badStatus,
         Event.ordersResolved (FetchOutcome.ok [datedOrder "o1" (some 0)]),
         Event.usersResolved (FetchOutcome.ok [sampleUser])]).orders = [datedOrder "o1" (some 0)]
    ∧ showsError (run initialState
        [Event.statsResolved FetchOutcome.badStatus,
         Event.ordersResolved (FetchOutcome.ok [datedOrder "o1" (some 0)]),
         Event.usersResolved (FetchOutcome.ok [sampleUser])]) = false :=
  ⟨rfl,
    run_stats_failure_not_fatal [sampleUser] [datedOrder "o1" (some 0)] FetchOutcome.badStatus _ rfl
      (((List.Perm.swap _ _ _).trans (List.Perm.cons _ (List.Perm.swap _ _ _))).trans
        (List.Perm.swap _ _ _))⟩

/-! ## C13: no way back from the error view -/

/-- One event keeps the error view shown, from any state. -/
theorem step_showsError (s : DashboardState) (e : Event)
    (hshown : showsError s = true) (hmsg : thrownMessageNonEmpty e = true) :
    showsError (step s e) = true := by
  unfold showsError
  rw [step_error]
  cases e with
  | usersResolved r =>
    cases r with
    | ok userData => exact hshown
    | badStatus => simp [failureMessage]
    | thrown message => simpa [failureMessage, thrownMessageNonEmpty] using hmsg
  | ordersResolved r =>
    cases r with
    | ok orderData => exact hshown
    | badStatus => simp [failureMessage]
    | thrown message => simpa [failureMessage, thrownMessageNonEmpty] using hmsg
  | statsResolved r => cases r <;> exact hshown
  | deleteClicked email role reply => exact hshown

/-- A sequence of events keeps the error view shown, from any state. -/
theorem run_showsError (s : DashboardState) (events : List Event)
    (hshown : showsError s = true) (hmsg : ∀ e ∈ events, thrownMessageNonEmpty e = true) :
    showsError (run s events) = true := by
  induction events generalizing s with
  | nil => exact hshown
  | cons e rest ih =>
    show showsError (run (step s e) rest) = true
    exact ih (step s e) (step_showsError s e hshown (hmsg e (List.mem_cons_self _ _)))
      (fun x hx => hmsg x (List.mem_cons_of_mem _ hx))

/-- C13: from every state reached in an activation in which the error view is
shown, every later event (a fetch that resolves with any outcome, a delete
click with any outcome) leads to a state in which the error view is still
shown, and the held error is never reset to `null`. The events are those the
dashboard can receive: an error thrown by `fetch` or `response.json()`
carries a non-empty message. -/
theorem error_view_stays (earlier later : List Event)
    (hshown : showsError (run initialState earlier) = true)
    (hmsg : ∀ e ∈ later, thrownMessageNonEmpty e = true) :
    showsError (run initialState (earlier ++ later)) = true
    ∧ (run initialState (earlier ++ later)).error ≠ none := by
  have h : showsError (run initialState (earlier ++ later)) = true := by
    rw [run_append]
    exact run_showsError _ later hshown hmsg
  refine ⟨h, ?_⟩
  intro hnone
  unfold showsError at h
  rw [hnone] at h
  exact Bool.false_ne_true h

/-- C13 at an activation whose users fetch fails, after which the orders and
the category statistics arrive and a delete is clicked. -/
theorem error_view_stays_witness :
    showsError (run initialState [Event.usersResolved FetchOutcome.badStatus]) = true
    ∧ showsError (run initialState
        ([Event.usersResolved FetchOutcome.badStatus]
          ++ [Event.ordersResolved (FetchOutcome.ok []),
              Event.statsResolved (FetchOutcome.ok defaultCategoryStats),
              Event.deleteClicked "bob@example.com" "User"
                (DeleteReply.decoded true (DeleteBody.object none none))])) = true
    ∧ (run initialState
        ([Event.usersResolved FetchOutcome.badStatus]
          ++ [Event.ordersResolved (FetchOutcome.ok []),
              Event.statsResolved (FetchOutcome.ok defaultCategoryStats),
              Event.deleteClicked "bob@example.com" "User"
                (DeleteReply.decoded true (DeleteBody.object none none))])).error ≠ none :=
  ⟨by decide,
    error_view_stays [Event.usersResolved FetchOutcome.badStatus] _ (by decide) (by
      intro e he
      simp only [List.mem_cons, List.mem_singleton, List.not_mem_nil, or_false] at he
      rcases he with rfl | rfl | rfl <;> rfl)⟩

/-! ## C14: the text and the lifetime of the toasts -/

/-- C14, the claim as stated fails: a DELETE for a non-admin user answered
with a success status and the body `null` (a body that decodes) raises the
error toast of the `catch` block, not a toast with the default success text. -/
theorem handleDelete_null_body :
    (handleDelete sampleState "bob@example.com" "User"
        (DeleteReply.decoded true DeleteBody.jsonNull)).toasts
      = [⟨ToastKind.error, "An error occurred while deleting the user", 3000⟩]
    ∧ (handleDelete sampleState "bob@example.com" "User"
        (DeleteReply.decoded true DeleteBody.jsonNull)).toasts.map Toast.text
      ≠ ["User deleted successfully"] := by
  decide

/-- C14, amended: for every non-admin delete whose response body decodes to a
non-null value, exactly one toast is raised and its text is, on a success
status, the server message when present and not empty and otherwise
`User deleted successfully`, and on a non-success status the server error when
present and not empty and otherwise `Failed to delete user`; and every toast
`handleDelete` raises, on any path and for any role, closes after 3000 ms. -/
theorem handleDelete_toast_text (s : DashboardState) (email role : String)
    (message error : Option String) (hrole : role ≠ "Admin") :
    (handleDelete s email role
        (DeleteReply.decoded true (DeleteBody.object message error))).toasts.map Toast.text
      = [match message with
         | some m => if m = "" then "User deleted successfully" else m
         | none => "User deleted successfully"]
    ∧ (handleDelete s email role
        (DeleteReply.decoded false (DeleteBody.object message error))).toasts.map Toast.text
      = [match error with
         | some m => if m = "" then "Failed to delete user" else m
         | none => "Failed to delete user"]
    ∧ (∀ (anyRole : String) (reply : DeleteReply),
        ∀ t ∈ (handleDelete s email anyRole reply).toasts, t.autoClose = 3000) := by
  refine ⟨?_, ?_, ?_⟩
  · simp only [handleDelete, if_neg hrole, List.map_cons, List.map_nil, orDefault]
  · simp only [handleDelete, if_neg hrole, List.map_cons, List.map_nil, orDefault]
  · intro anyRole reply t ht
    unfold handleDelete at ht
    split at ht
    · simp only [List.mem_singleton] at ht
      rw [ht]
    · split at ht <;>
      · simp only [List.mem_singleton] at ht
        rw [ht]

/-- C14, amended claim at the sample state, with a server message and a
server error in the body. -/
theorem handleDelete_toast_text_witness :
    "User" ≠ "Admin"
    ∧ (handleDelete sampleState "bob@example.com" "User"
        (DeleteReply.decoded true
          (DeleteBody.object (some "Removed") (some "Locked")))).toasts.map Toast.text
      = [match (some "Removed" : Option String) with
         | some m => if m = "" then "User deleted successfully" else m
         | none => "User deleted successfully"]
    ∧ (handleDelete sampleState "bob@example.com" "User"
        (DeleteReply.decoded false
          (DeleteBody.object (some "Removed") (some "Locked")))).toasts.map Toast.text
      = [match (some "Locked" : Option String) with
         | some m => if m = "" then "Failed to delete user" else m
         | none => "Failed to delete user"]
    ∧ (∀ (anyRole : String) (reply : DeleteReply),
        ∀ t ∈ (handleDelete sampleState "bob@example.com" anyRole reply).toasts,
          t.autoClose = 3000) :=
  ⟨by decide,
    handleDelete_toast_text sampleState "bob@example.com" "User" (some "Removed") (some "Locked")
      (by decide)⟩

/-! ## C15: the role chart dataset -/

theorem keys_replaceProperty (k : String) (v : CountVal) (counts : Counts) :
    (replaceProperty k v counts).map Prod.fst = counts.map Prod.fst := by
  induction counts with
  | nil => rfl
  | cons kv rest ih =>
    unfold replaceProperty
    by_cases hk : kv.1 = k
    · have hb : (kv.1 == k) = true := by simp [hk]
      rw [if_pos hb]
      simp [hk]
    · have hb : ¬ ((kv.1 == k) = true) := by simp [hk]
      rw [if_neg hb]
      simp [ih]

theorem ownProperty_eq_none_iff (counts : Counts) (k : String) :
    ownProperty counts k = none ↔ k ∉ counts.map Prod.fst := by
  induction counts with
  | nil => simp [ownProperty_nil]
  | cons kv rest ih =>
    rw [ownProperty_cons]
    by_cases hk : kv.1 = k
    · simp [hk]
    · rw [if_neg hk, ih]
      simp only [List.map_cons, List.mem_cons, not_or]
      constructor
      · intro h
        exact ⟨fun e => hk e.symm, h⟩
      · intro h
        exact h.2

/-- The keys after a write. -/
theorem keys_setProperty (counts : Counts) (k : String) (v : CountVal) :
    (setProperty counts k v).map Prod.fst
      = if k = "__proto__" ∨ k ∈ counts.map Prod.fst then counts.map Prod.fst
        else counts.map Prod.fst ++ [k] := by
  unfold setProperty
  by_cases hp : k = "__proto__"
  · rw [if_pos hp, if_pos (Or.inl hp)]
  · rw [if_neg hp]
    cases hown : ownProperty counts k with
    | none =>
      have hnot : k ∉ counts.map Prod.fst := (ownProperty_eq_none_iff counts k).mp hown
      have hcond : ¬ (k = "__proto__" ∨ k ∈ counts.map Prod.fst) := by
        rintro (h | h)
        · exact hp h
        · exact hnot h
      rw [if_neg hcond]
      simp
    | some x =>
      have hmem : k ∈ counts.map Prod.fst := by
        by_contra hnot
        rw [(ownProperty_eq_none_iff counts k).mpr hnot] at hown
        cases hown
      rw [if_pos (Or.inr hmem)]
      simp only [Option.isSome_some, if_true]
      exact keys_replaceProperty k v counts

/-- No key occurs twice among the own properties of the histogram. -/
theorem keys_userRoleCounts_nodup (users : List User) :
    ((userRoleCounts users).map Prod.fst).Nodup := by
  induction users using List.reverseRecOn with
  | nil => exact List.nodup_nil
  | append_singleton init u ih =>
    rw [userRoleCounts_append_singleton, keys_setProperty]
    split
    · exact ih
    · rename_i hcond
      rw [List.nodup_append]
      refine ⟨ih, List.nodup_singleton _, ?_⟩
      intro x hx hy
      rw [List.mem_singleton] at hy
      exact hcond (Or.inr (hy ▸ hx))

/-- Every key of the histogram is the role of some user. -/
theorem keys_userRoleCounts_subset (users : List User) (k : String)
    (hk : k ∈ (userRoleCounts users).map Prod.fst) : ∃ u ∈ users, u.role = k := by
  induction users using List.reverseRecOn with
  | nil => simp [userRoleCounts] at hk
  | append_singleton init u ih =>
    rw [userRoleCounts_append_singleton, keys_setProperty] at hk
    split at hk
    · obtain ⟨w, hw, hwk⟩ := ih hk
      exact ⟨w, List.mem_append_left _ hw, hwk⟩
    · rcases List.mem_append.mp hk with h | h
      · obtain ⟨w, hw, hwk⟩ := ih h
        exact ⟨w, List.mem_append_left _ hw, hwk⟩
      · rw [List.mem_singleton] at h
        exact ⟨u, List.mem_append_right _ (List.mem_singleton.mpr rfl), h.symm⟩

/-- With distinct keys, a stored pair is what a read of its key finds. -/
theorem ownProperty_of_mem (counts : Counts) (k : String) (v : CountVal)
    (hnd : (counts.map Prod.fst).Nodup) (hmem : (k, v) ∈ counts) :
    ownProperty counts k = some v := by
  induction counts with
  | nil => cases hmem
  | cons kv rest ih =>
    rw [ownProperty_cons]
    rw [List.map_cons, List.nodup_cons] at hnd
    rcases List.mem_cons.mp hmem with h | h
    · rw [← h]
      simp
    · have hne : ¬ kv.1 = k := by
        intro e
        apply hnd.1
        rw [e]
        exact List.mem_map.mpr ⟨(k, v), h, rfl⟩
      rw [if_neg hne]
      exact ih hnd.2 h

theorem roleCount_pos_of_mem (users : List User) (u : User) (hu : u ∈ users) :
    0 < roleCount users u.role := by
  unfold roleCount
  rw [List.countP_pos_iff]
  exact ⟨u, hu, by simp⟩

/-- When no role is the name of a member of `Object.prototype`, every stored
pair holds the count of its key. -/
theorem value_userRoleCounts (users : List User)
    (hroles : ∀ u ∈ users, u.role ∉ objectPrototypeNames)
    (kv : String × CountVal) (hmem : kv ∈ userRoleCounts users) :
    kv.2 = CountVal.num (roleCount users kv.1) := by
  have hkey : kv.1 ∈ (userRoleCounts users).map Prod.fst := List.mem_map.mpr ⟨kv, hmem, rfl⟩
  obtain ⟨u, hu, hur⟩ := keys_userRoleCounts_subset users kv.1 hkey
  have hown := ownProperty_of_mem (userRoleCounts users) kv.1 kv.2
    (keys_userRoleCounts_nodup users) hmem
  have hcount := ownProperty_userRoleCounts users kv.1 (hur ▸ hroles u hu)
  have hpos : roleCount users kv.1 ≠ 0 := by
    have := roleCount_pos_of_mem users u hu
    rw [hur] at this
    exact Nat.pos_iff_ne_zero.mp this
  rw [hown, if_neg hpos] at hcount
  exact Option.some.inj hcount

/-- When no role is the name of a member of `Object.prototype`, every role
is a key of the histogram. -/
theorem role_mem_keys (users : List User)
    (hroles : ∀ u ∈ users, u.role ∉ objectPrototypeNames) (u : User) (hu : u ∈ users) :
    u.role ∈ (userRoleCounts users).map Prod.fst := by
  by_contra hnot
  have hnone := (ownProperty_eq_none_iff (userRoleCounts users) u.role).mpr hnot
  have hcount := ownProperty_userRoleCounts users u.role (hroles u hu)
  have hpos : roleCount users u.role ≠ 0 :=
    Nat.pos_iff_ne_zero.mp (roleCount_pos_of_mem users u hu)
  rw [hnone, if_neg hpos] at hcount
  cases hcount

theorem sum_indicator_eq_count (a : String) (ks : List String) :
    (ks.map (fun k => if a = k then 1 else 0)).sum = ks.count a := by
  induction ks with
  | nil => rfl
  | cons k rest ih =>
    rw [List.map_cons, List.sum_cons, ih, List.count_cons]
    by_cases h : a = k
    · simp [h]; omega
    · have h2 : ¬ k = a := fun e => h e.symm
      simp [h, h2]

/-- Over distinct keys that cover every role, the counts add up to the number
of users. -/
theorem sum_roleCount (users : List User) (ks : List String) (hnd : ks.Nodup)
    (hcover : ∀ u ∈ users, u.role ∈ ks) :
    (ks.map (roleCount users)).sum = users.length := by
  induction users with
  | nil =>
    have : ks.map (roleCount []) = ks.map (fun _ => 0) := by
      apply List.map_congr_left
      intro k _
      rfl
    rw [this]
    simp
  | cons u rest ih =>
    have hstep : ks.map (roleCount (u :: rest))
        = ks.map (fun k => roleCount rest k + (if u.role = k then 1 else 0)) := by
      apply List.map_congr_left
      intro k _
      unfold roleCount
      rw [List.countP_cons]
      by_cases h : u.role = k
      · simp [h]
      · simp [h]
    rw [hstep, List.sum_map_add, ih (fun w hw => hcover w (List.mem_cons_of_mem _ hw)),
      sum_indicator_eq_count,
      List.count_eq_one_of_mem hnd (hcover u (List.mem_cons_self _ _))]
    rfl

/-- The enumeration order rearranges the own properties and drops none. -/
theorem ownEntries_perm (counts : Counts) : (ownEntries counts).Perm counts := by
  unfold ownEntries
  exact ((List.perm_insertionSort _ _).append_right _).trans
    (List.filter_append_perm (fun kv => (arrayIndex kv.1).isSome) counts)

/-- C15, the claim as stated fails: with one user of role `User` and one of
role `__proto__` the dataset has the single label `User` with the value 1, so
its data cannot add up to the two users shown as Total Users. -/
theorem userRoleData_proto_role :
    userRoleData [roleUser "User", roleUser "__proto__"] = (["User"], [CountVal.num 1])
    ∧ [roleUser "User", roleUser "__proto__"].length = 2
    ∧ ¬ (∃ ns : List Nat,
        (userRoleData [roleUser "User", roleUser "__proto__"]).2 = ns.map CountVal.num
        ∧ ns.sum = [roleUser "User", roleUser "__proto__"].length) := by
  have hdata : userRoleData [roleUser "User", roleUser "__proto__"]
      = (["User"], [CountVal.num 1]) := by decide
  refine ⟨hdata, rfl, ?_⟩
  rw [hdata]
  rintro ⟨ns, hns, hsum⟩
  match ns, hns, hsum with
  | [], hns, _ => cases hns
  | [n], hns, hsum =>
    simp only [List.map_cons, List.map_nil, List.cons.injEq, CountVal.num.injEq,
      and_true] at hns
    subst hns
    simp at hsum
  | _ :: _ :: _, hns, _ => simp at hns

/-- C15, amended: for every user list in which no role is the name of a
member of `Object.prototype`, the labels and the data of `userRoleData` have
the same length, each datum is the number of users whose role is the label at
the same index, the labels are pairwise distinct, and the data add up to the
number of users. -/
theorem userRoleData_consistent (users : List User)
    (hroles : ∀ u ∈ users, u.role ∉ objectPrototypeNames) :
    (userRoleData users).1.length = (userRoleData users).2.length
    ∧ (userRoleData users).2
      = (userRoleData users).1.map (fun r => CountVal.num (roleCount users r))
    ∧ (userRoleData users).1.Nodup
    ∧ (∃ ns : List Nat, (userRoleData users).2 = ns.map CountVal.num
        ∧ ns.sum = users.length) := by
  have hperm := ownEntries_perm (userRoleCounts users)
  have hkeys : ((ownEntries (userRoleCounts users)).map Prod.fst).Perm
      ((userRoleCounts users).map Prod.fst) := hperm.map Prod.fst
  have hdata : (userRoleData users).2
      = (userRoleData users).1.map (fun r => CountVal.num (roleCount users r)) := by
    show (ownEntries (userRoleCounts users)).map Prod.snd
      = ((ownEntries (userRoleCounts users)).map Prod.fst).map
          (fun r => CountVal.num (roleCount users r))
    rw [List.map_map]
    apply List.map_congr_left
    intro kv hkv
    exact value_userRoleCounts users hroles kv (hperm.mem_iff.mp hkv)
  have hnodup : (userRoleData users).1.Nodup :=
    hkeys.nodup_iff.mpr (keys_userRoleCounts_nodup users)
  have hsum : ((userRoleData users).1.map (roleCount users)).sum = users.length := by
    apply sum_roleCount users _ hnodup
    intro u hu
    exact hkeys.mem_iff.mpr (role_mem_keys users hroles u hu)
  refine ⟨?_, hdata, hnodup, (userRoleData users).1.map (roleCount users), ?_, hsum⟩
  · show ((ownEntries (userRoleCounts users)).map Prod.fst).length
      = ((ownEntries (userRoleCounts users)).map Prod.snd).length
    rw [List.length_map, List.length_map]
  · rw [hdata, List.map_map]
    rfl

/-- C15, amended claim at the roles `User`, `2`, `Admin`, `2`: the labels are
`2`, `User`, `Admin` with the data 2, 1, 1. -/
theorem userRoleData_consistent_witness :
    userRoleData [roleUser "User", roleUser "2", roleUser "Admin", roleUser "2"]
      = (["2", "User", "Admin"], [CountVal.num 2, CountVal.num 1, CountVal.num 1])
    ∧ (userRoleData [roleUser "User", roleUser "2", roleUser "Admin", roleUser "2"]).1.length
      = (userRoleData [roleUser "User", roleUser "2", roleUser "Admin", roleUser "2"]).2.length
    ∧ (userRoleData [roleUser "User", roleUser "2", roleUser "Admin", roleUser "2"]).2
      = (userRoleData [roleUser "User", roleUser "2", roleUser "Admin", roleUser "2"]).1.map
          (fun r => CountVal.num
            (roleCount [roleUser "User", roleUser "2", roleUser "Admin", roleUser "2"] r))
    ∧ (userRoleData [roleUser "User", roleUser "2", roleUser "Admin", roleUser "2"]).1.Nodup
    ∧ (∃ ns : List Nat,
        (userRoleData [roleUser "User", roleUser "2", roleUser "Admin", roleUser "2"]).2
          = ns.map CountVal.num
        ∧ ns.sum = [roleUser "User", roleUser "2", roleUser "Admin", roleUser "2"].length) :=
  ⟨by decide,
    userRoleData_consistent [roleUser "User", roleUser "2", roleUser "Admin", roleUser "2"]
      (by decide)⟩

end Foodie
